import Mathlib

set_option maxRecDepth 16000

/-!
Verification of the xyzconverter survey-point conversion engine
(src/xyzconverter.py).  The parsing/formatting core is shallowly embedded:
Python strings become Lean `String` (manipulated through their character
lists), Python floats become exact rationals `ℚ`, fallible code returns
`Option`/`Except`.  The GUI layer is out of scope; the orchestrator is
modelled as a pure function from a resolved configuration and input text.
-/

/-- The characters Python's `str.strip()` removes: every code point for
which `str.isspace()` holds (ASCII whitespace, the information
separators, NEL, NBSP, and the Unicode space/line/paragraph separators). -/
def pySpaceChars : List Char :=
  ['\t', '\n', '\u000B', '\u000C', '\r', '\u001C', '\u001D', '\u001E', '\u001F',
   ' ', '\u0085', '\u00A0', '\u1680', '\u2000', '\u2001', '\u2002', '\u2003',
   '\u2004', '\u2005', '\u2006', '\u2007', '\u2008', '\u2009', '\u200A',
   '\u2028', '\u2029', '\u202F', '\u205F', '\u3000']

/-- Whitespace as recognized by Python's `str.strip()`. -/
def isPySpace (c : Char) : Bool := decide (c ∈ pySpaceChars)

/-- Python `s.strip()` on a character list: drop whitespace on both ends. -/
def stripChars (l : List Char) : List Char :=
  ((l.dropWhile isPySpace).reverse.dropWhile isPySpace).reverse

/-- Python `s.strip()` on strings. -/
def pyStrip (s : String) : String := String.mk (stripChars s.data)

/-- Python slicing `s[a:b]` (with `0 ≤ a ≤ b`), counted in characters. -/
def pySlice (s : String) (a b : Nat) : String := String.mk ((s.data.drop a).take (b - a))

/-- Python `s.split(sep)` for a one-character separator: split at every
occurrence, keeping empty pieces (so the result is never empty). -/
def splitChar (c : Char) : List Char → List (List Char)
  | [] => [[]]
  | x :: xs =>
    match splitChar c xs with
    | [] => [[]]
    | g :: gs => if x = c then [] :: g :: gs else (x :: g) :: gs

/-- Python `sep.join(pieces)` for a one-character separator, on char lists. -/
def joinChars (c : Char) : List (List Char) → List Char
  | [] => []
  | l :: ls =>
    match ls with
    | [] => l
    | _ :: _ => l ++ c :: joinChars c ls

/-- Python `s.startswith(t)`. -/
def strStartsWith (s t : String) : Bool := t.data.isPrefixOf s.data

/-- Numeric value of a decimal digit character. -/
def digitVal (c : Char) : Nat := c.toNat - '0'.toNat

/-- Value of a big-endian list of decimal digit characters. -/
def evalDigits (l : List Char) : Nat := l.foldl (fun a c => a * 10 + digitVal c) 0

/-- Exponent part of a Python float literal (after the `e`/`E`). -/
def parseExpChars (l : List Char) : Option Int :=
  match l with
  | [] => none
  | c :: rest =>
    if c = '+' then
      if rest ≠ [] ∧ rest.all Char.isDigit then some (evalDigits rest) else none
    else if c = '-' then
      if rest ≠ [] ∧ rest.all Char.isDigit then some (-(evalDigits rest : Int)) else none
    else
      if (c :: rest).all Char.isDigit then some (evalDigits (c :: rest)) else none

/-- Value of a mantissa split into integer and fractional digit lists,
as the exact rational (integer-part · 10^k + fraction) / 10^k. -/
def mantVal (ip fp : List Char) : ℚ :=
  mkRat (evalDigits ip * 10 ^ fp.length + evalDigits fp) (10 ^ fp.length)

/-- Scaling a rational by a (possibly negative) power of ten. -/
def scale10 (x : ℚ) (k : Int) : ℚ :=
  if 0 ≤ k then mkRat (x.num * 10 ^ k.toNat) x.den
  else mkRat x.num (x.den * 10 ^ (-k).toNat)

/-- Unsigned part of a Python float literal: digits, optional fractional
part, optional exponent. -/
def parseUnsignedChars (l : List Char) : Option ℚ :=
  match l.dropWhile Char.isDigit with
  | [] =>
    if l.takeWhile Char.isDigit = [] then none
    else some (mantVal (l.takeWhile Char.isDigit) [])
  | c :: rest2 =>
    if c = '.' then
      match rest2.dropWhile Char.isDigit with
      | [] =>
        if l.takeWhile Char.isDigit = [] ∧ rest2.takeWhile Char.isDigit = [] then none
        else some (mantVal (l.takeWhile Char.isDigit) (rest2.takeWhile Char.isDigit))
      | e :: rest4 =>
        if (e = 'e' ∨ e = 'E') ∧ ¬(l.takeWhile Char.isDigit = [] ∧ rest2.takeWhile Char.isDigit = []) then
          (parseExpChars rest4).map
            (fun k => scale10 (mantVal (l.takeWhile Char.isDigit) (rest2.takeWhile Char.isDigit)) k)
        else none
    else if (c = 'e' ∨ c = 'E') ∧ l.takeWhile Char.isDigit ≠ [] then
      (parseExpChars rest2).map (fun k => scale10 (mantVal (l.takeWhile Char.isDigit) []) k)
    else none

/-- Python `float(s)` on an already-stripped string, modelled for finite
decimal literals (optional sign, digits, optional fraction and exponent);
the special forms `inf`/`nan`/underscored literals have no rational value
and are not modelled.  Every call site in the program strips its argument
first. -/
def pyFloatChars (l : List Char) : Option ℚ :=
  match l with
  | [] => none
  | c :: rest =>
    if c = '+' then parseUnsignedChars rest
    else if c = '-' then (parseUnsignedChars rest).map (fun x => -x)
    else parseUnsignedChars (c :: rest)

/-- Python `float` on strings. -/
def pyFloat (s : String) : Option ℚ := pyFloatChars s.data

/-- Decimal digit characters of a positive natural number, big-endian,
with an explicit fuel argument for structural recursion. -/
def natCharsAux : Nat → Nat → List Char
  | 0, _ => []
  | fuel + 1, n =>
    if n = 0 then [] else natCharsAux fuel (n / 10) ++ [Nat.digitChar (n % 10)]

/-- Decimal digit characters of a natural number, big-endian. -/
def natChars (n : Nat) : List Char :=
  if n = 0 then ['0'] else natCharsAux (n + 1) n

/-- Pad a digit list on the left with `'0'` up to width `w`. -/
def padZeros (w : Nat) (l : List Char) : List Char :=
  List.replicate (w - l.length) '0' ++ l

/-- Number of ten-thousandths of `q`, rounded to the nearest integer
(computed on numerator and denominator; `roundScaled_eq` below identifies
it with `round (q * 10000)`). -/
def roundScaled (q : ℚ) : Int :=
  Rat.floor (mkRat (2 * q.num * 10000 + q.den) (2 * q.den))

/-- Python `f-string` fixed-point formatting with 4 decimals, on the exact
rational value (scaling, rounding to an integer number of ten-thousandths,
and rendering; a magnitude below half an ulp renders as unsigned zero). -/
def fmt4 (q : ℚ) : String :=
  let n : Int := roundScaled q
  let m := n.natAbs
  String.mk ((if n < 0 then ['-'] else []) ++
    natChars (m / 10000) ++ '.' :: padZeros 4 (natChars (m % 10000)))

/-- Rounding a rational to 4 decimal places. -/
def round4 (q : ℚ) : ℚ := mkRat (roundScaled q) 10000

/-- Canonical point record (dataclass `Point`). -/
structure Point where
  point : String
  north : ℚ
  east : ℚ
  height : ℚ
  description : String := ""
deriving DecidableEq

/-- Delimiter choices offered by the program (enum `Delimiter`). -/
inductive Delimiter
  | COMMA
  | SPACE
  | TAB
  | SEMICOLON
deriving DecidableEq

/-- Character carried by each delimiter variant. -/
def Delimiter.char : Delimiter → Char
  | .COMMA => ','
  | .SPACE => ' '
  | .TAB => '\t'
  | .SEMICOLON => ';'

/-- Coordinate order choices (enum `CoordinateOrder`). -/
inductive CoordinateOrder
  | NORTH_EAST
  | EAST_NORTH
deriving DecidableEq

/-- Typed failures of the conversion engine: `IOError` from the reader
(unknown encoding), `ValueError` from header validation, and the
`ValueError` raised by the orchestrator when no points were parsed. -/
inductive ConvError
  | encodingError (filename : String)
  | formatError (msg : String)
  | emptyResult
deriving DecidableEq

deriving instance DecidableEq for Except

/-! ## SDR33 parser (`class SDR33Parser`) -/

/-- Header check of `SDR33Parser._validate_header`: length at least 45,
literal magic at the start, order flag `'1'`/`'2'` at offset 44. -/
def SDR33Parser.validateHeader (header : String) : Except ConvError Unit :=
  if header.length < 45 then
    .error (.formatError ("Заголовок SDR33 слишком короткий: " ++
      toString header.length ++ " < 45"))
  else if strStartsWith header "00NMSDR33" = false then
    .error (.formatError "Неверный заголовок SDR33: не начинается с 00NMSDR33")
  else if header.data.getD 44 ' ' ≠ '1' ∧ header.data.getD 44 ' ' ≠ '2' then
    .error (.formatError ("Неверный флаг порядка координат: " ++
      toString (header.data.getD 44 ' ')))
  else .ok ()

/-- Field extraction of `SDR33Parser._parse_line`: fixed character ranges,
floats for the two coordinates and the height (`none` · a raised
`ValueError` there), order flag choosing the (north, east) assignment. -/
def SDR33Parser.parseLine (line : String) (orderFlag : Char) : Option Point :=
  match pyFloat (pyStrip (pySlice line 20 36)), pyFloat (pyStrip (pySlice line 36 52)),
        pyFloat (pyStrip (pySlice line 52 68)) with
  | some coord1, some coord2, some h =>
    if orderFlag = '1' then
      some ⟨pyStrip (pySlice line 4 20), coord1, coord2, h,
        if 84 ≤ line.length then pyStrip (pySlice line 68 84) else ""⟩
    else
      some ⟨pyStrip (pySlice line 4 20), coord2, coord1, h,
        if 84 ≤ line.length then pyStrip (pySlice line 68 84) else ""⟩
  | _, _, _ => none

/-- Per-line step of `SDR33Parser.parse`'s loop: a line is recognized as a
point record only when it has at least 84 characters and starts with
`"08"` or `"02"`; a recognized line that fails numeric parsing is skipped
with a warning (here: `none`). -/
def SDR33Parser.recordStep (orderFlag : Char) (line : String) : Option Point :=
  if 84 ≤ line.length ∧ (pySlice line 0 2 = "08" ∨ pySlice line 0 2 = "02") then
    SDR33Parser.parseLine line orderFlag
  else none

/-- Lines of `content.strip().split('\n')`. -/
def SDR33Parser.linesOf (content : String) : List String :=
  (splitChar '\n' (stripChars content.data)).map String.mk

/-- The whole `SDR33Parser.parse`: strip and split the text, validate the
first line as header, then fold the remaining lines through
`recordStep` under the header's order flag. -/
def SDR33Parser.parse (content : String) : Except ConvError (List Point) :=
  if SDR33Parser.linesOf content = [] then .ok []
  else
    match SDR33Parser.validateHeader ((SDR33Parser.linesOf content).headD "") with
    | .error e => .error e
    | .ok _ =>
      .ok (((SDR33Parser.linesOf content).drop 1).filterMap
        (SDR33Parser.recordStep (((SDR33Parser.linesOf content).headD "").data.getD 44 ' ')))

/-! ## Generic delimited parser (`class GenericTextParser`) -/

/-- Fields of a line: split on the delimiter, each piece stripped. -/
def trimmedParts (line : String) (delimiter : Char) : List String :=
  (splitChar delimiter line.data).map (fun l => String.mk (stripChars l))

/-- The body of `GenericTextParser._parse_line`: at least 4 fields, field 0
the name, fields 1-2 the coordinates assigned by the order parameter,
field 3 the height, field 4 (when present) the description. -/
def GenericTextParser.gpLine (line : String) (delimiter : Char)
    (order : CoordinateOrder) : Option Point :=
  if (trimmedParts line delimiter).length < 4 then none
  else
    match pyFloat ((trimmedParts line delimiter).getD 1 ""),
          pyFloat ((trimmedParts line delimiter).getD 2 ""),
          pyFloat ((trimmedParts line delimiter).getD 3 "") with
    | some v1, some v2, some v3 =>
      match order with
      | .NORTH_EAST =>
        some ⟨(trimmedParts line delimiter).getD 0 "", v1, v2, v3,
          if 4 < (trimmedParts line delimiter).length then
            (trimmedParts line delimiter).getD 4 "" else ""⟩
      | .EAST_NORTH =>
        some ⟨(trimmedParts line delimiter).getD 0 "", v2, v1, v3,
          if 4 < (trimmedParts line delimiter).length then
            (trimmedParts line delimiter).getD 4 "" else ""⟩
    | _, _, _ => none

/-- Per-line step of `GenericTextParser.parse`'s loop: strip the line, skip
it when blank, otherwise try `gpLine` (a per-line failure is `none`). -/
def GenericTextParser.gpStep (delimiter : Char) (order : CoordinateOrder)
    (lchars : List Char) : Option Point :=
  let line := String.mk (stripChars lchars)
  if line = "" then none else GenericTextParser.gpLine line delimiter order

/-- The whole `GenericTextParser.parse`. -/
def GenericTextParser.parse (content : String) (delimiter : Char)
    (order : CoordinateOrder) : List Point :=
  (splitChar '\n' (stripChars content.data)).filterMap
    (GenericTextParser.gpStep delimiter order)

/-! ## Formatters (`class FileFormatter`) -/

/-- Python `f"{s:>w}"`: right-justify in `w` characters (no truncation). -/
def padLeftSp (w : Nat) (s : String) : String :=
  String.mk (List.replicate (w - s.data.length) ' ' ++ s.data)

/-- Python `f"{s:<w}"`: left-justify in `w` characters (no truncation). -/
def padRightSp (w : Nat) (s : String) : String :=
  String.mk (s.data ++ List.replicate (w - s.data.length) ' ')

/-- The fixed literal header line emitted by `FileFormatter.to_sdr33`. -/
def FileFormatter.sdrHeader : String := "00NMSDR33 V04-02.00                     111111"

/-- A record line of `to_sdr33` before the final truncation. -/
def FileFormatter.sdrFull (p : Point) : String :=
  "08KI" ++ padLeftSp 16 p.point ++ padRightSp 16 (fmt4 p.north) ++
    padRightSp 16 (fmt4 p.east) ++ padRightSp 16 (fmt4 p.height) ++
    padRightSp 16 p.description

/-- A record line of `to_sdr33`: the assembled fields, hard-truncated to 84
characters (Python `[:84]`). -/
def FileFormatter.sdrLine (p : Point) : String :=
  String.mk ((FileFormatter.sdrFull p).data.take 84)

/-- The whole `FileFormatter.to_sdr33`. -/
def FileFormatter.to_sdr33 (points : List Point) : String :=
  String.mk (joinChars '\n'
    ((FileFormatter.sdrHeader :: points.map FileFormatter.sdrLine).map String.data))

/-- A record line of `FileFormatter.to_text`: name, the two coordinates in
the requested order, height (all three with 4 decimals), description,
joined by the delimiter. -/
def FileFormatter.textLine (p : Point) (delimiter : Char)
    (order : CoordinateOrder) : List Char :=
  match order with
  | .NORTH_EAST =>
    joinChars delimiter [p.point.data, (fmt4 p.north).data, (fmt4 p.east).data,
      (fmt4 p.height).data, p.description.data]
  | .EAST_NORTH =>
    joinChars delimiter [p.point.data, (fmt4 p.east).data, (fmt4 p.north).data,
      (fmt4 p.height).data, p.description.data]

/-- The whole `FileFormatter.to_text`. -/
def FileFormatter.to_text (points : List Point) (delimiter : Char)
    (order : CoordinateOrder) : String :=
  String.mk (joinChars '\n' (points.map (fun p => FileFormatter.textLine p delimiter order)))

/-! ## Conversion orchestrator (`ConverterApp._convert` and helpers,
with the UI resolved into an explicit configuration) -/

/-- Options resolved by the caller before a conversion. -/
structure ConvertConfig where
  inputExt : String
  inputDelimiter : Delimiter
  inputOrder : CoordinateOrder
  outputFormat : String
  outputDelimiter : Delimiter
  outputOrder : CoordinateOrder

/-- Parser dispatch of `ConverterApp._parse_input_file` on the input
extension. -/
def parseInputFile (cfg : ConvertConfig) (content : String) : Except ConvError (List Point) :=
  if cfg.inputExt = ".sdr" then SDR33Parser.parse content
  else if cfg.inputExt = ".pnt" then
    .ok (GenericTextParser.parse content ',' .EAST_NORTH)
  else if cfg.inputExt = ".csv" then
    .ok (GenericTextParser.parse content ';' cfg.inputOrder)
  else
    .ok (GenericTextParser.parse content cfg.inputDelimiter.char cfg.inputOrder)

/-- Formatter dispatch of `ConverterApp._format_output_data` on the output
format tag. -/
def formatOutputData (cfg : ConvertConfig) (points : List Point) : String :=
  if cfg.outputFormat = "SDR" then FileFormatter.to_sdr33 points
  else if cfg.outputFormat = "PNT" then FileFormatter.to_text points ',' .EAST_NORTH
  else if cfg.outputFormat = "CSV" then FileFormatter.to_text points ';' cfg.outputOrder
  else FileFormatter.to_text points cfg.outputDelimiter.char cfg.outputOrder

/-- The conversion pipeline of `ConverterApp._convert` after the file was
read: parse, reject an empty point list (`ValueError` · `emptyResult`),
format. -/
def convertApp (cfg : ConvertConfig) (content : String) : Except ConvError String :=
  match parseInputFile cfg content with
  | .error e => .error e
  | .ok points =>
    if points = [] then .error .emptyResult
    else .ok (formatOutputData cfg points)

/-! ## Text loader (`class FileReader`) -/

/-- Whether a byte is a UTF-8 continuation byte `0x80`-`0xBF`. -/
def isCont (b : Nat) : Bool := 128 ≤ b ∧ b ≤ 191

/-- Strict UTF-8 decoding of a byte list, as Python's `utf-8` codec:
rejects overlong forms, surrogates, values beyond `0x10FFFF`, and
truncated sequences. -/
def utf8Chars : List Nat → Option (List Char)
  | [] => some []
  | b :: rest =>
    if b < 128 then
      (utf8Chars rest).map (fun cs => Char.ofNat b :: cs)
    else if 194 ≤ b ∧ b ≤ 223 then
      match rest with
      | c1 :: rest2 =>
        if isCont c1 then
          (utf8Chars rest2).map (fun cs => Char.ofNat ((b - 192) * 64 + (c1 - 128)) :: cs)
        else none
      | [] => none
    else if 224 ≤ b ∧ b ≤ 239 then
      match rest with
      | c1 :: c2 :: rest2 =>
        let lo1 := if b = 224 then 160 else 128
        let hi1 := if b = 237 then 159 else 191
        if (lo1 ≤ c1 ∧ c1 ≤ hi1) ∧ isCont c2 then
          (utf8Chars rest2).map (fun cs =>
            Char.ofNat ((b - 224) * 4096 + (c1 - 128) * 64 + (c2 - 128)) :: cs)
        else none
      | _ => none
    else if 240 ≤ b ∧ b ≤ 244 then
      match rest with
      | c1 :: c2 :: c3 :: rest2 =>
        let lo1 := if b = 240 then 144 else 128
        let hi1 := if b = 244 then 143 else 191
        if (lo1 ≤ c1 ∧ c1 ≤ hi1) ∧ isCont c2 ∧ isCont c3 then
          (utf8Chars rest2).map (fun cs =>
            Char.ofNat ((b - 240) * 262144 + (c1 - 128) * 4096 + (c2 - 128) * 64 + (c3 - 128)) :: cs)
        else none
      | _ => none
    else none

/-- Decoding a whole byte list as UTF-8 text. -/
def decodeUtf8 (bs : List Nat) : Option String := (utf8Chars bs).map String.mk
/-- Byte-to-character table of the Windows 1251 code page for the high
range `0x80`-`0xFF` (`none` at the code page's unassigned positions). -/
def cp1251High (b : Nat) : Option Char :=
  match b with
  | 128 => some (Char.ofNat 1026)
  | 129 => some (Char.ofNat 1027)
  | 130 => some (Char.ofNat 8218)
  | 131 => some (Char.ofNat 1107)
  | 132 => some (Char.ofNat 8222)
  | 133 => some (Char.ofNat 8230)
  | 134 => some (Char.ofNat 8224)
  | 135 => some (Char.ofNat 8225)
  | 136 => some (Char.ofNat 8364)
  | 137 => some (Char.ofNat 8240)
  | 138 => some (Char.ofNat 1033)
  | 139 => some (Char.ofNat 8249)
  | 140 => some (Char.ofNat 1034)
  | 141 => some (Char.ofNat 1036)
  | 142 => some (Char.ofNat 1035)
  | 143 => some (Char.ofNat 1039)
  | 144 => some (Char.ofNat 1106)
  | 145 => some (Char.ofNat 8216)
  | 146 => some (Char.ofNat 8217)
  | 147 => some (Char.ofNat 8220)
  | 148 => some (Char.ofNat 8221)
  | 149 => some (Char.ofNat 8226)
  | 150 => some (Char.ofNat 8211)
  | 151 => some (Char.ofNat 8212)
  | 152 => none
  | 153 => some (Char.ofNat 8482)
  | 154 => some (Char.ofNat 1113)
  | 155 => some (Char.ofNat 8250)
  | 156 => some (Char.ofNat 1114)
  | 157 => some (Char.ofNat 1116)
  | 158 => some (Char.ofNat 1115)
  | 159 => some (Char.ofNat 1119)
  | 160 => some (Char.ofNat 160)
  | 161 => some (Char.ofNat 1038)
  | 162 => some (Char.ofNat 1118)
  | 163 => some (Char.ofNat 1032)
  | 164 => some (Char.ofNat 164)
  | 165 => some (Char.ofNat 1168)
  | 166 => some (Char.ofNat 166)
  | 167 => some (Char.ofNat 167)
  | 168 => some (Char.ofNat 1025)
  | 169 => some (Char.ofNat 169)
  | 170 => some (Char.ofNat 1028)
  | 171 => some (Char.ofNat 171)
  | 172 => some (Char.ofNat 172)
  | 173 => some (Char.ofNat 173)
  | 174 => some (Char.ofNat 174)
  | 175 => some (Char.ofNat 1031)
  | 176 => some (Char.ofNat 176)
  | 177 => some (Char.ofNat 177)
  | 178 => some (Char.ofNat 1030)
  | 179 => some (Char.ofNat 1110)
  | 180 => some (Char.ofNat 1169)
  | 181 => some (Char.ofNat 181)
  | 182 => some (Char.ofNat 182)
  | 183 => some (Char.ofNat 183)
  | 184 => some (Char.ofNat 1105)
  | 185 => some (Char.ofNat 8470)
  | 186 => some (Char.ofNat 1108)
  | 187 => some (Char.ofNat 187)
  | 188 => some (Char.ofNat 1112)
  | 189 => some (Char.ofNat 1029)
  | 190 => some (Char.ofNat 1109)
  | 191 => some (Char.ofNat 1111)
  | 192 => some (Char.ofNat 1040)
  | 193 => some (Char.ofNat 1041)
  | 194 => some (Char.ofNat 1042)
  | 195 => some (Char.ofNat 1043)
  | 196 => some (Char.ofNat 1044)
  | 197 => some (Char.ofNat 1045)
  | 198 => some (Char.ofNat 1046)
  | 199 => some (Char.ofNat 1047)
  | 200 => some (Char.ofNat 1048)
  | 201 => some (Char.ofNat 1049)
  | 202 => some (Char.ofNat 1050)
  | 203 => some (Char.ofNat 1051)
  | 204 => some (Char.ofNat 1052)
  | 205 => some (Char.ofNat 1053)
  | 206 => some (Char.ofNat 1054)
  | 207 => some (Char.ofNat 1055)
  | 208 => some (Char.ofNat 1056)
  | 209 => some (Char.ofNat 1057)
  | 210 => some (Char.ofNat 1058)
  | 211 => some (Char.ofNat 1059)
  | 212 => some (Char.ofNat 1060)
  | 213 => some (Char.ofNat 1061)
  | 214 => some (Char.ofNat 1062)
  | 215 => some (Char.ofNat 1063)
  | 216 => some (Char.ofNat 1064)
  | 217 => some (Char.ofNat 1065)
  | 218 => some (Char.ofNat 1066)
  | 219 => some (Char.ofNat 1067)
  | 220 => some (Char.ofNat 1068)
  | 221 => some (Char.ofNat 1069)
  | 222 => some (Char.ofNat 1070)
  | 223 => some (Char.ofNat 1071)
  | 224 => some (Char.ofNat 1072)
  | 225 => some (Char.ofNat 1073)
  | 226 => some (Char.ofNat 1074)
  | 227 => some (Char.ofNat 1075)
  | 228 => some (Char.ofNat 1076)
  | 229 => some (Char.ofNat 1077)
  | 230 => some (Char.ofNat 1078)
  | 231 => some (Char.ofNat 1079)
  | 232 => some (Char.ofNat 1080)
  | 233 => some (Char.ofNat 1081)
  | 234 => some (Char.ofNat 1082)
  | 235 => some (Char.ofNat 1083)
  | 236 => some (Char.ofNat 1084)
  | 237 => some (Char.ofNat 1085)
  | 238 => some (Char.ofNat 1086)
  | 239 => some (Char.ofNat 1087)
  | 240 => some (Char.ofNat 1088)
  | 241 => some (Char.ofNat 1089)
  | 242 => some (Char.ofNat 1090)
  | 243 => some (Char.ofNat 1091)
  | 244 => some (Char.ofNat 1092)
  | 245 => some (Char.ofNat 1093)
  | 246 => some (Char.ofNat 1094)
  | 247 => some (Char.ofNat 1095)
  | 248 => some (Char.ofNat 1096)
  | 249 => some (Char.ofNat 1097)
  | 250 => some (Char.ofNat 1098)
  | 251 => some (Char.ofNat 1099)
  | 252 => some (Char.ofNat 1100)
  | 253 => some (Char.ofNat 1101)
  | 254 => some (Char.ofNat 1102)
  | 255 => some (Char.ofNat 1103)
  | _ => none

/-- Decoding one byte under cp1251 (ASCII below `0x80`). -/
def cp1251Char (b : Nat) : Option Char :=
  if b < 128 then some (Char.ofNat b) else cp1251High b

/-- Byte-to-character table of the Windows 1252 code page for the high
range `0x80`-`0xFF` (`none` at the code page's unassigned positions). -/
def cp1252High (b : Nat) : Option Char :=
  match b with
  | 128 => some (Char.ofNat 8364)
  | 129 => none
  | 130 => some (Char.ofNat 8218)
  | 131 => some (Char.ofNat 402)
  | 132 => some (Char.ofNat 8222)
  | 133 => some (Char.ofNat 8230)
  | 134 => some (Char.ofNat 8224)
  | 135 => some (Char.ofNat 8225)
  | 136 => some (Char.ofNat 710)
  | 137 => some (Char.ofNat 8240)
  | 138 => some (Char.ofNat 352)
  | 139 => some (Char.ofNat 8249)
  | 140 => some (Char.ofNat 338)
  | 141 => none
  | 142 => some (Char.ofNat 381)
  | 143 => none
  | 144 => none
  | 145 => some (Char.ofNat 8216)
  | 146 => some (Char.ofNat 8217)
  | 147 => some (Char.ofNat 8220)
  | 148 => some (Char.ofNat 8221)
  | 149 => some (Char.ofNat 8226)
  | 150 => some (Char.ofNat 8211)
  | 151 => some (Char.ofNat 8212)
  | 152 => some (Char.ofNat 732)
  | 153 => some (Char.ofNat 8482)
  | 154 => some (Char.ofNat 353)
  | 155 => some (Char.ofNat 8250)
  | 156 => some (Char.ofNat 339)
  | 157 => none
  | 158 => some (Char.ofNat 382)
  | 159 => some (Char.ofNat 376)
  | 160 => some (Char.ofNat 160)
  | 161 => some (Char.ofNat 161)
  | 162 => some (Char.ofNat 162)
  | 163 => some (Char.ofNat 163)
  | 164 => some (Char.ofNat 164)
  | 165 => some (Char.ofNat 165)
  | 166 => some (Char.ofNat 166)
  | 167 => some (Char.ofNat 167)
  | 168 => some (Char.ofNat 168)
  | 169 => some (Char.ofNat 169)
  | 170 => some (Char.ofNat 170)
  | 171 => some (Char.ofNat 171)
  | 172 => some (Char.ofNat 172)
  | 173 => some (Char.ofNat 173)
  | 174 => some (Char.ofNat 174)
  | 175 => some (Char.ofNat 175)
  | 176 => some (Char.ofNat 176)
  | 177 => some (Char.ofNat 177)
  | 178 => some (Char.ofNat 178)
  | 179 => some (Char.ofNat 179)
  | 180 => some (Char.ofNat 180)
  | 181 => some (Char.ofNat 181)
  | 182 => some (Char.ofNat 182)
  | 183 => some (Char.ofNat 183)
  | 184 => some (Char.ofNat 184)
  | 185 => some (Char.ofNat 185)
  | 186 => some (Char.ofNat 186)
  | 187 => some (Char.ofNat 187)
  | 188 => some (Char.ofNat 188)
  | 189 => some (Char.ofNat 189)
  | 190 => some (Char.ofNat 190)
  | 191 => some (Char.ofNat 191)
  | 192 => some (Char.ofNat 192)
  | 193 => some (Char.ofNat 193)
  | 194 => some (Char.ofNat 194)
  | 195 => some (Char.ofNat 195)
  | 196 => some (Char.ofNat 196)
  | 197 => some (Char.ofNat 197)
  | 198 => some (Char.ofNat 198)
  | 199 => some (Char.ofNat 199)
  | 200 => some (Char.ofNat 200)
  | 201 => some (Char.ofNat 201)
  | 202 => some (Char.ofNat 202)
  | 203 => some (Char.ofNat 203)
  | 204 => some (Char.ofNat 204)
  | 205 => some (Char.ofNat 205)
  | 206 => some (Char.ofNat 206)
  | 207 => some (Char.ofNat 207)
  | 208 => some (Char.ofNat 208)
  | 209 => some (Char.ofNat 209)
  | 210 => some (Char.ofNat 210)
  | 211 => some (Char.ofNat 211)
  | 212 => some (Char.ofNat 212)
  | 213 => some (Char.ofNat 213)
  | 214 => some (Char.ofNat 214)
  | 215 => some (Char.ofNat 215)
  | 216 => some (Char.ofNat 216)
  | 217 => some (Char.ofNat 217)
  | 218 => some (Char.ofNat 218)
  | 219 => some (Char.ofNat 219)
  | 220 => some (Char.ofNat 220)
  | 221 => some (Char.ofNat 221)
  | 222 => some (Char.ofNat 222)
  | 223 => some (Char.ofNat 223)
  | 224 => some (Char.ofNat 224)
  | 225 => some (Char.ofNat 225)
  | 226 => some (Char.ofNat 226)
  | 227 => some (Char.ofNat 227)
  | 228 => some (Char.ofNat 228)
  | 229 => some (Char.ofNat 229)
  | 230 => some (Char.ofNat 230)
  | 231 => some (Char.ofNat 231)
  | 232 => some (Char.ofNat 232)
  | 233 => some (Char.ofNat 233)
  | 234 => some (Char.ofNat 234)
  | 235 => some (Char.ofNat 235)
  | 236 => some (Char.ofNat 236)
  | 237 => some (Char.ofNat 237)
  | 238 => some (Char.ofNat 238)
  | 239 => some (Char.ofNat 239)
  | 240 => some (Char.ofNat 240)
  | 241 => some (Char.ofNat 241)
  | 242 => some (Char.ofNat 242)
  | 243 => some (Char.ofNat 243)
  | 244 => some (Char.ofNat 244)
  | 245 => some (Char.ofNat 245)
  | 246 => some (Char.ofNat 246)
  | 247 => some (Char.ofNat 247)
  | 248 => some (Char.ofNat 248)
  | 249 => some (Char.ofNat 249)
  | 250 => some (Char.ofNat 250)
  | 251 => some (Char.ofNat 251)
  | 252 => some (Char.ofNat 252)
  | 253 => some (Char.ofNat 253)
  | 254 => some (Char.ofNat 254)
  | 255 => some (Char.ofNat 255)
  | _ => none

/-- Decoding one byte under cp1252 (ASCII below `0x80`). -/
def cp1252Char (b : Nat) : Option Char :=
  if b < 128 then some (Char.ofNat b) else cp1252High b
/-- Decoding a whole byte list under cp1251 (fails only at the single
unassigned byte `0x98`). -/
def decodeCp1251 (bs : List Nat) : Option String :=
  (bs.mapM cp1251Char).map String.mk

/-- Decoding a whole byte list under cp1252 (fails at the five unassigned
bytes `0x81`, `0x8D`, `0x8F`, `0x90`, `0x9D`). -/
def decodeCp1252 (bs : List Nat) : Option String :=
  (bs.mapM cp1252Char).map String.mk

/-- Decoding a whole byte list under latin-1: every byte maps to the
character with the same code point, so this decode never fails on bytes. -/
def decodeLatin1 (bs : List Nat) : Option String :=
  if bs.all (· < 256) then some (String.mk (bs.map Char.ofNat)) else none

/-- Universal-newline translation performed by text-mode `open(...)`:
`"\r\n"` and a lone `"\r"` both become `"\n"`. -/
def uninewline : List Char → List Char
  | [] => []
  | ['\r'] => ['\n']
  | '\r' :: '\n' :: rest => '\n' :: uninewline rest
  | '\r' :: c :: rest => '\n' :: uninewline (c :: rest)
  | c :: rest => c :: uninewline rest

/-- The ordered encoding candidates of `FileReader.ENCODINGS`:
UTF-8 first, then the Cyrillic code page cp1251, the Western European
code page cp1252, and latin-1. -/
def ENCODINGS : List (String × (List Nat → Option String)) :=
  [("utf-8", decodeUtf8), ("cp1251", decodeCp1251), ("cp1252", decodeCp1252),
   ("latin-1", decodeLatin1)]

/-- First successful decode in candidate order. -/
def firstDecode : List (String × (List Nat → Option String)) → List Nat → Option String
  | [], _ => none
  | (_, d) :: rest, bs =>
    match d bs with
    | some t => some t
    | none => firstDecode rest bs

/-- The body of `FileReader.read_file`: try each candidate encoding on the
raw bytes, return the first text that decodes (after the text-mode newline
translation); when every candidate fails, raise `IOError` naming the file
(here `encodingError` with the file's display name). -/
def FileReader.read_file (bs : List Nat) (displayName : String) : Except ConvError String :=
  match firstDecode ENCODINGS bs with
  | some t => .ok (String.mk (uninewline t.data))
  | none => .error (.encodingError displayName)

/-! ## Lemmas about splitting, joining and stripping -/

theorem splitChar_ne_nil (c : Char) (l : List Char) : splitChar c l ≠ [] := by
  cases l with
  | nil => simp [splitChar]
  | cons x xs =>
    simp only [splitChar]
    cases h : splitChar c xs with
    | nil => simp
    | cons g gs => by_cases hx : x = c <;> simp [hx]

theorem splitChar_not_mem {c : Char} {l : List Char} (h : c ∉ l) : splitChar c l = [l] := by
  induction l with
  | nil => rfl
  | cons x xs ih =>
    have hx : ¬x = c := by rintro rfl; exact h (List.mem_cons_self _ _)
    have hxs : c ∉ xs := fun hm => h (List.mem_cons_of_mem _ hm)
    simp [splitChar, ih hxs, hx]

theorem splitChar_append_cons {c : Char} {l1 : List Char} (l2 : List Char) (h : c ∉ l1) :
    splitChar c (l1 ++ c :: l2) = l1 :: splitChar c l2 := by
  induction l1 with
  | nil =>
    simp only [List.nil_append, splitChar]
    cases hs : splitChar c l2 with
    | nil => exact absurd hs (splitChar_ne_nil c l2)
    | cons g gs => simp
  | cons x xs ih =>
    have hx : ¬x = c := by rintro rfl; exact h (List.mem_cons_self _ _)
    have hxs : c ∉ xs := fun hm => h (List.mem_cons_of_mem _ hm)
    simp only [List.cons_append, splitChar, List.append_eq]
    rw [ih hxs]
    simp [hx]

theorem joinChars_cons (c : Char) (l l2 : List Char) (ls : List (List Char)) :
    joinChars c (l :: l2 :: ls) = l ++ c :: joinChars c (l2 :: ls) := rfl

theorem splitChar_joinChars {c : Char} {ls : List (List Char)} (hne : ls ≠ [])
    (hmem : ∀ l ∈ ls, c ∉ l) : splitChar c (joinChars c ls) = ls := by
  induction ls with
  | nil => exact absurd rfl hne
  | cons l ls ih =>
    cases ls with
    | nil => simpa [joinChars] using splitChar_not_mem (hmem l (by simp))
    | cons l2 ls2 =>
      rw [joinChars_cons, splitChar_append_cons _ (hmem l (by simp)),
        ih (by simp) (fun x hx => hmem x (by simp [hx]))]

theorem splitChar_append_last (c : Char) (l : List Char) :
    splitChar c (l ++ [c]) = splitChar c l ++ [[]] := by
  induction l with
  | nil => simp [splitChar]
  | cons x xs ih =>
    simp only [List.cons_append, splitChar, List.append_eq]
    rw [ih]
    cases hs : splitChar c xs with
    | nil => exact absurd hs (splitChar_ne_nil c xs)
    | cons g gs => by_cases hx : x = c <;> simp [hx]

/-- Appending one character to the last group of a split. -/
def appendLastCh : List (List Char) → Char → List (List Char)
  | [], a => [[a]]
  | [g], a => [g ++ [a]]
  | g :: g2 :: gs, a => g :: appendLastCh (g2 :: gs) a

theorem splitChar_append_ne {c a : Char} (hne : ¬a = c) (l : List Char) :
    splitChar c (l ++ [a]) = appendLastCh (splitChar c l) a := by
  induction l with
  | nil => simp [splitChar, appendLastCh, hne]
  | cons x xs ih =>
    simp only [List.cons_append, splitChar, List.append_eq]
    rw [ih]
    cases hs : splitChar c xs with
    | nil => exact absurd hs (splitChar_ne_nil c xs)
    | cons g gs =>
      cases gs with
      | nil => by_cases hx : x = c <;> simp [hx, appendLastCh]
      | cons g2 gs2 => by_cases hx : x = c <;> simp [hx, appendLastCh]

theorem stripChars_cons_space {x : Char} (hx : isPySpace x = true) (l : List Char) :
    stripChars (x :: l) = stripChars l := by
  simp [stripChars, List.dropWhile_cons, hx]

theorem dropWhile_eq_self_of_head {p : Char → Bool} {l : List Char}
    (h : p (l.headD '0') = false) : l.dropWhile p = l := by
  cases l with
  | nil => rfl
  | cons x xs => simp only [List.headD_cons] at h; simp [List.dropWhile_cons, h]

theorem stripChars_append_space {a : Char} (ha : isPySpace a = true) (l : List Char) :
    stripChars (l ++ [a]) = stripChars l := by
  unfold stripChars
  rw [List.dropWhile_append]
  cases h : (l.dropWhile isPySpace).isEmpty with
  | true =>
    simp only [if_pos rfl, List.isEmpty_iff] at *
    simp [h, List.dropWhile_cons, ha]
  | false =>
    simp only [Bool.false_eq_true, if_false, List.isEmpty_iff] at *
    rw [List.reverse_append]
    simp [List.dropWhile_cons, ha]

theorem length_stripChars_le (l : List Char) : (stripChars l).length ≤ l.length := by
  unfold stripChars
  calc ((l.dropWhile isPySpace).reverse.dropWhile isPySpace).reverse.length
      = ((l.dropWhile isPySpace).reverse.dropWhile isPySpace).length := List.length_reverse _
    _ ≤ (l.dropWhile isPySpace).reverse.length := (List.dropWhile_sublist _).length_le
    _ = (l.dropWhile isPySpace).length := List.length_reverse _
    _ ≤ l.length := (List.dropWhile_sublist _).length_le

theorem stripChars_eq_self {l : List Char} (h1 : isPySpace (l.headD '0') = false)
    (h2 : isPySpace (l.reverse.headD '0') = false) : stripChars l = l := by
  unfold stripChars
  rw [dropWhile_eq_self_of_head h1, dropWhile_eq_self_of_head h2, List.reverse_reverse]

theorem head_not_space_of_stripped {l : List Char} (h : stripChars l = l) :
    isPySpace (l.headD '0') = false := by
  cases l with
  | nil => decide
  | cons x xs =>
    simp only [List.headD_cons]
    by_contra hx
    have hx' : isPySpace x = true := by
      cases hxx : isPySpace x with
      | true => rfl
      | false => exact absurd hxx hx
    have h2 := stripChars_cons_space hx' xs
    rw [h] at h2
    have h3 := length_stripChars_le xs
    rw [← h2] at h3
    simp at h3

theorem revhead_not_space_of_stripped {l : List Char} (h : stripChars l = l) :
    isPySpace (l.reverse.headD '0') = false := by
  cases hr : l.reverse with
  | nil => decide
  | cons x xs =>
    simp only [List.headD_cons]
    by_contra hx
    have hx' : isPySpace x = true := by
      cases hxx : isPySpace x with
      | true => rfl
      | false => exact absurd hxx hx
    have hl : l = xs.reverse ++ [x] := by
      have := congrArg List.reverse hr
      simpa using this
    have h2 := stripChars_append_space hx' xs.reverse
    rw [← hl, h] at h2
    have h3 := length_stripChars_le xs.reverse
    rw [← h2, hl] at h3
    simp at h3

/-! ## Lemmas about digit rendering and float parsing -/

theorem natCharsAux_eq (fuel : Nat) : ∀ n : Nat, n ≤ fuel →
    natCharsAux fuel n = ((Nat.digits 10 n).map Nat.digitChar).reverse := by
  induction fuel with
  | zero =>
    intro n h
    have : n = 0 := Nat.le_zero.mp h
    subst this
    simp [natCharsAux]
  | succ fuel ih =>
    intro n h
    by_cases hn : n = 0
    · subst hn; simp [natCharsAux]
    · rw [natCharsAux, if_neg hn,
        Nat.digits_def' (by norm_num : 1 < 10) (Nat.pos_of_ne_zero hn)]
      have hdiv : n / 10 ≤ fuel := by
        have := Nat.div_lt_self (Nat.pos_of_ne_zero hn) (by norm_num : 1 < 10)
        omega
      rw [ih (n / 10) hdiv]
      simp

theorem natChars_eq (n : Nat) :
    natChars n = if n = 0 then ['0'] else ((Nat.digits 10 n).map Nat.digitChar).reverse := by
  by_cases hn : n = 0
  · simp [natChars, hn]
  · rw [natChars, if_neg hn, if_neg hn, natCharsAux_eq _ n (Nat.le_succ n)]

theorem digitVal_digitChar {d : Nat} (h : d < 10) : digitVal (Nat.digitChar d) = d := by
  interval_cases d <;> decide

theorem digitChar_isDigit {d : Nat} (h : d < 10) : (Nat.digitChar d).isDigit = true := by
  interval_cases d <;> decide

theorem evalDigits_append_single (l : List Char) (c : Char) :
    evalDigits (l ++ [c]) = evalDigits l * 10 + digitVal c := by
  unfold evalDigits
  rw [List.foldl_append]
  rfl

theorem evalDigits_digits (ds : List Nat) (h : ∀ d ∈ ds, d < 10) :
    evalDigits ((ds.map Nat.digitChar).reverse) = Nat.ofDigits 10 ds := by
  induction ds with
  | nil => simp [evalDigits, Nat.ofDigits_nil]
  | cons d ds ih =>
    simp only [List.map_cons, List.reverse_cons]
    rw [evalDigits_append_single, ih (fun x hx => h x (List.mem_cons_of_mem _ hx)),
      digitVal_digitChar (h d (List.mem_cons_self _ _)), Nat.ofDigits_cons]
    ring

theorem evalDigits_natChars (n : Nat) : evalDigits (natChars n) = n := by
  rw [natChars_eq]
  by_cases hn : n = 0
  · simp [hn]; decide
  · rw [if_neg hn,
      evalDigits_digits _ (fun d hd => Nat.digits_lt_base (by norm_num) hd),
      Nat.ofDigits_digits]

theorem natChars_all_digit (n : Nat) : ∀ c ∈ natChars n, c.isDigit = true := by
  rw [natChars_eq]
  by_cases hn : n = 0
  · simp [hn]
  · rw [if_neg hn]
    intro c hc
    rw [List.mem_reverse] at hc
    obtain ⟨d, hd, rfl⟩ := List.mem_map.mp hc
    exact digitChar_isDigit (Nat.digits_lt_base (by norm_num) hd)

theorem natChars_ne_nil (n : Nat) : natChars n ≠ [] := by
  rw [natChars_eq]
  by_cases hn : n = 0
  · simp [hn]
  · rw [if_neg hn]
    simp [Nat.digits_ne_nil_iff_ne_zero.mpr hn]

theorem natChars_len_le {k : Nat} (h : k < 10000) : (natChars k).length ≤ 4 := by
  rw [natChars_eq]
  by_cases hk : k = 0
  · simp [hk]
  · rw [if_neg hk]
    rw [List.length_reverse, List.length_map, Nat.digits_len 10 k (by norm_num) hk]
    have := Nat.log_lt_of_lt_pow hk (show k < 10 ^ 4 by norm_num; omega)
    omega

theorem evalDigits_replicate_zero (k : Nat) (l : List Char) :
    evalDigits (List.replicate k '0' ++ l) = evalDigits l := by
  induction k with
  | zero => simp
  | succ k ih =>
    rw [List.replicate_succ, List.cons_append]
    show List.foldl _ (0 * 10 + digitVal '0') _ = _
    have h0 : 0 * 10 + digitVal '0' = 0 := by decide
    rw [h0]
    exact ih

theorem evalDigits_padZeros (w : Nat) (l : List Char) :
    evalDigits (padZeros w l) = evalDigits l :=
  evalDigits_replicate_zero _ l

theorem padZeros_length {l : List Char} (h : l.length ≤ 4) : (padZeros 4 l).length = 4 := by
  simp only [padZeros, List.length_append, List.length_replicate]
  omega

theorem padZeros_all_digit {l : List Char} (h : ∀ c ∈ l, c.isDigit = true) (w : Nat) :
    ∀ c ∈ padZeros w l, c.isDigit = true := by
  intro c hc
  rcases List.mem_append.mp hc with hc | hc
  · rw [List.eq_of_mem_replicate hc]; decide
  · exact h c hc

theorem takeWhile_append_not {p : Char → Bool} {x : Char} (hx : p x = false) (r : List Char) :
    ∀ l : List Char, (∀ c ∈ l, p c = true) →
      (l ++ x :: r).takeWhile p = l ∧ (l ++ x :: r).dropWhile p = x :: r
  | [], _ => by simp [List.takeWhile_cons, List.dropWhile_cons, hx]
  | a :: as, hl => by
    have ha : p a = true := hl a (by simp)
    obtain ⟨h1, h2⟩ := takeWhile_append_not hx r as (fun c hc => hl c (by simp [hc]))
    simp [List.takeWhile_cons, List.dropWhile_cons, ha, h1, h2]

theorem parseUnsigned_frac {ip fp : List Char} (hip : ∀ c ∈ ip, c.isDigit = true)
    (hfp : ∀ c ∈ fp, c.isDigit = true) (hne : ip ≠ []) :
    parseUnsignedChars (ip ++ '.' :: fp) = some (mantVal ip fp) := by
  obtain ⟨ht, hd⟩ :=
    takeWhile_append_not (show ('.' : Char).isDigit = false by decide) fp ip hip
  unfold parseUnsignedChars
  rw [hd, ht]
  simp only [if_pos rfl]
  rw [List.dropWhile_eq_nil_iff.mpr (fun c hc => hfp c hc),
    List.takeWhile_eq_self_iff.mpr (fun c hc => hfp c hc)]
  simp [hne]

theorem pyFloatChars_cons (c : Char) (rest : List Char) :
    pyFloatChars (c :: rest) =
      if c = '+' then parseUnsignedChars rest
      else if c = '-' then (parseUnsignedChars rest).map (fun x => -x)
      else parseUnsignedChars (c :: rest) := rfl

theorem isDigit_ne_plus {c : Char} (h : c.isDigit = true) : ¬c = '+' := by
  rintro rfl; exact absurd h (by decide)

theorem isDigit_ne_minus {c : Char} (h : c.isDigit = true) : ¬c = '-' := by
  rintro rfl; exact absurd h (by decide)

theorem mantVal_div_mod (m : Nat) (hlen : (padZeros 4 (natChars (m % 10000))).length = 4) :
    mantVal (natChars (m / 10000)) (padZeros 4 (natChars (m % 10000))) = mkRat m 10000 := by
  unfold mantVal
  rw [hlen, evalDigits_natChars, evalDigits_padZeros, evalDigits_natChars]
  congr 1
  have := Nat.div_add_mod m 10000
  push_cast
  omega

theorem pyFloat_fmt4 (q : ℚ) : pyFloat (fmt4 q) = some (round4 q) := by
  have hmod : (roundScaled q).natAbs % 10000 < 10000 := Nat.mod_lt _ (by norm_num)
  have hlen : (padZeros 4 (natChars ((roundScaled q).natAbs % 10000))).length = 4 :=
    padZeros_length (natChars_len_le hmod)
  have hipd : ∀ c ∈ natChars ((roundScaled q).natAbs / 10000), c.isDigit = true :=
    natChars_all_digit _
  have hfpd : ∀ c ∈ padZeros 4 (natChars ((roundScaled q).natAbs % 10000)), c.isDigit = true :=
    padZeros_all_digit (natChars_all_digit _) 4
  have hne := natChars_ne_nil ((roundScaled q).natAbs / 10000)
  have hfrac := parseUnsigned_frac hipd hfpd hne
  have hmant := mantVal_div_mod (roundScaled q).natAbs hlen
  show pyFloatChars (fmt4 q).data = some (round4 q)
  by_cases hneg : roundScaled q < 0
  · have : (fmt4 q).data = '-' ::
        (natChars ((roundScaled q).natAbs / 10000) ++
          '.' :: padZeros 4 (natChars ((roundScaled q).natAbs % 10000))) := by
      simp [fmt4, hneg]
    rw [this, pyFloatChars_cons,
      if_neg (show ¬('-' : Char) = '+' by decide),
      if_pos (show ('-' : Char) = '-' from rfl), hfrac, hmant]
    simp only [Option.map_some']
    rw [Rat.neg_mkRat]
    unfold round4
    have hcast : -((roundScaled q).natAbs : Int) = roundScaled q := by omega
    rw [hcast]
  · have : (fmt4 q).data =
        natChars ((roundScaled q).natAbs / 10000) ++
          '.' :: padZeros 4 (natChars ((roundScaled q).natAbs % 10000)) := by
      simp [fmt4, hneg]
    rw [this]
    obtain ⟨c, ics, hics⟩ := List.exists_cons_of_ne_nil hne
    have hcd : c.isDigit = true := hipd c (by rw [hics]; exact List.mem_cons_self _ _)
    rw [hics]
    rw [hics] at hfrac
    rw [List.cons_append] at hfrac
    rw [List.cons_append, pyFloatChars_cons,
      if_neg (isDigit_ne_plus hcd), if_neg (isDigit_ne_minus hcd), hfrac]
    rw [← hics, hmant]
    unfold round4
    have hcast : (((roundScaled q).natAbs : Int)) = roundScaled q := by omega
    rw [hcast]

theorem roundScaled_eq (q : ℚ) : roundScaled q = round (q * 10000) := by
  have hfl : ∀ x : ℚ, Rat.floor x = ⌊x⌋ := by
    intro x
    rw [Rat.floor_def]
    unfold Rat.floor
    split
    · rename_i hden
      rw [hden]
      simp
    · rfl
  rw [roundScaled, hfl, round_eq]
  congr 1
  rw [Rat.mkRat_eq_div]
  have hden : (q.den : ℚ) ≠ 0 := Nat.cast_ne_zero.mpr q.den_nz
  have hnum : q * (q.den : ℚ) = q.num := by
    nth_rewrite 1 [← Rat.num_div_den q]
    exact div_mul_cancel₀ _ hden
  push_cast
  field_simp
  linear_combination (-40000 : ℚ) * hnum

theorem round4_eq (q : ℚ) : round4 q = (round (q * 10000) : ℚ) / 10000 := by
  rw [round4, roundScaled_eq, Rat.mkRat_eq_div]
  norm_num

/-! ## Character classification of formatted numbers -/

theorem fmt4_chars {q : ℚ} : ∀ c ∈ (fmt4 q).data, c.isDigit = true ∨ c = '.' ∨ c = '-' := by
  simp only [fmt4]
  refine List.forall_mem_append.mpr ⟨List.forall_mem_append.mpr ⟨?_, ?_⟩, ?_⟩
  · intro c hc
    split at hc
    · right; right; simpa using hc
    · simp at hc
  · intro c hc
    exact Or.inl (natChars_all_digit _ c hc)
  · intro c hc
    rcases List.mem_cons.mp hc with rfl | hc
    · right; left; rfl
    · unfold padZeros at hc
      rcases List.mem_append.mp hc with hc | hc
      · rw [List.eq_of_mem_replicate hc]; left; decide
      · exact Or.inl (natChars_all_digit _ c hc)

theorem isPySpace_of_isDigit {c : Char} (h : c.isDigit = true) : isPySpace c = false := by
  cases hs : isPySpace c with
  | false => rfl
  | true =>
    exfalso
    have hmem : c ∈ pySpaceChars := by
      simpa [isPySpace, decide_eq_true_eq] using hs
    have hall : ∀ x ∈ pySpaceChars, x.isDigit = false := by decide
    have hfalse := hall c hmem
    rw [h] at hfalse
    cases hfalse

theorem fmt4_no_space {q : ℚ} : ∀ c ∈ (fmt4 q).data, isPySpace c = false := by
  intro c hc
  rcases fmt4_chars c hc with h | rfl | rfl
  · exact isPySpace_of_isDigit h
  · decide
  · decide

theorem delim_not_mem_fmt4 (d : Delimiter) (q : ℚ) : d.char ∉ (fmt4 q).data := by
  intro hm
  rcases fmt4_chars _ hm with h | h | h <;> cases d <;> simp_all [Delimiter.char]

theorem newline_not_mem_fmt4 (q : ℚ) : '\n' ∉ (fmt4 q).data := by
  intro hm
  rcases fmt4_chars _ hm with h | h | h <;> simp_all

theorem fmt4_ne_nil (q : ℚ) : (fmt4 q).data ≠ [] := by
  simp only [fmt4]
  intro h
  rcases List.append_eq_nil.mp h with ⟨-, h2⟩
  exact List.cons_ne_nil _ _ h2

theorem stripChars_eq_self_of_no_space {l : List Char} (h : ∀ c ∈ l, isPySpace c = false) :
    stripChars l = l := by
  apply stripChars_eq_self
  · cases l with
    | nil => decide
    | cons x xs => exact h x (List.mem_cons_self _ _)
  · cases hr : l.reverse with
    | nil => decide
    | cons x xs =>
      have : x ∈ l := by
        rw [← List.mem_reverse, hr]
        exact List.mem_cons_self _ _
      simpa using h x this

theorem fmt4_stripped (q : ℚ) : stripChars (fmt4 q).data = (fmt4 q).data :=
  stripChars_eq_self_of_no_space fmt4_no_space

/-! ## Structural lemmas for the SDR33 parser -/

theorem SDR33Parser.linesOf_ne_nil (content : String) : SDR33Parser.linesOf content ≠ [] := by
  unfold SDR33Parser.linesOf
  intro h
  rw [List.map_eq_nil_iff] at h
  exact splitChar_ne_nil _ _ h

theorem SDR33Parser.parse_ok_of {content header : String} {rest : List String}
    (h : SDR33Parser.linesOf content = header :: rest)
    (hok : SDR33Parser.validateHeader header = .ok ()) :
    SDR33Parser.parse content =
      .ok (rest.filterMap (SDR33Parser.recordStep (header.data.getD 44 ' '))) := by
  unfold SDR33Parser.parse
  rw [h, if_neg (by simp), List.headD_cons, hok]
  simp

theorem SDR33Parser.parse_error_of {content header : String} {rest : List String}
    (h : SDR33Parser.linesOf content = header :: rest)
    {e : ConvError} (he : SDR33Parser.validateHeader header = .error e) :
    SDR33Parser.parse content = .error e := by
  unfold SDR33Parser.parse
  rw [h, if_neg (by simp), List.headD_cons, he]

theorem SDR33Parser.validateHeader_is_error {header : String}
    (hbad : header.length < 45 ∨ strStartsWith header "00NMSDR33" = false ∨
      (¬header.data.getD 44 ' ' = '1' ∧ ¬header.data.getD 44 ' ' = '2')) :
    ∃ msg, SDR33Parser.validateHeader header = .error (.formatError msg) := by
  unfold SDR33Parser.validateHeader
  by_cases h1 : header.length < 45
  · rw [if_pos h1]; exact ⟨_, rfl⟩
  · rw [if_neg h1]
    by_cases h2 : strStartsWith header "00NMSDR33" = false
    · rw [if_pos h2]; exact ⟨_, rfl⟩
    · rw [if_neg h2]
      by_cases h3 : ¬header.data.getD 44 ' ' = '1' ∧ ¬header.data.getD 44 ' ' = '2'
      · rw [if_pos h3]; exact ⟨_, rfl⟩
      · rcases hbad with h | h | h
        · exact absurd h h1
        · exact absurd h h2
        · exact absurd h h3

theorem SDR33Parser.validateHeader_is_ok {header : String}
    (hgood : ¬(header.length < 45 ∨ strStartsWith header "00NMSDR33" = false ∨
      (¬header.data.getD 44 ' ' = '1' ∧ ¬header.data.getD 44 ' ' = '2'))) :
    SDR33Parser.validateHeader header = .ok () := by
  push_neg at hgood
  obtain ⟨h1, h2, h3⟩ := hgood
  unfold SDR33Parser.validateHeader
  rw [if_neg (by omega), if_neg h2, if_neg (by tauto)]

theorem SDR33Parser.recordStep_some {flag : Char} {line : String} {p : Point}
    (h : SDR33Parser.recordStep flag line = some p) :
    SDR33Parser.parseLine line flag = some p := by
  unfold SDR33Parser.recordStep at h
  split at h
  · exact h
  · cases h

theorem SDR33Parser.parseLine_fields {line : String} {flag : Char} {p : Point}
    (h : SDR33Parser.parseLine line flag = some p) :
    (flag = '1' →
      pyFloat (pyStrip (pySlice line 20 36)) = some p.north ∧
      pyFloat (pyStrip (pySlice line 36 52)) = some p.east)
    ∧ (¬flag = '1' →
      pyFloat (pyStrip (pySlice line 36 52)) = some p.north ∧
      pyFloat (pyStrip (pySlice line 20 36)) = some p.east) := by
  unfold SDR33Parser.parseLine at h
  rcases hc1 : pyFloat (pyStrip (pySlice line 20 36)) with - | c1 <;> rw [hc1] at h
  · cases h
  rcases hc2 : pyFloat (pyStrip (pySlice line 36 52)) with - | c2 <;> rw [hc2] at h
  · cases h
  rcases hc3 : pyFloat (pyStrip (pySlice line 52 68)) with - | c3 <;> rw [hc3] at h
  · cases h
  dsimp only at h
  by_cases hf : flag = '1'
  · rw [if_pos hf] at h
    obtain rfl := Option.some.inj h
    exact ⟨fun _ => ⟨rfl, rfl⟩, fun hnf => absurd hf hnf⟩
  · rw [if_neg hf] at h
    obtain rfl := Option.some.inj h
    exact ⟨fun hf1 => absurd hf1 hf, fun _ => ⟨rfl, rfl⟩⟩

/-! ## Claim theorems -/

/-- C1: for every SDR33 input whose header passes validation, parsing folds
the remaining lines under the header's order flag (character at offset 44),
and a record accepted under flag `'1'` has north = coord1 (chars 20:36
trimmed) and east = coord2 (chars 36:52 trimmed), while under flag `'2'`
north = coord2 and east = coord1. -/
theorem claim_C1 : ∀ (content header : String) (rest : List String),
    SDR33Parser.linesOf content = header :: rest →
    SDR33Parser.validateHeader header = .ok () →
    SDR33Parser.parse content =
      .ok (rest.filterMap (SDR33Parser.recordStep (header.data.getD 44 ' ')))
    ∧ (∀ (line : String) (p : Point), SDR33Parser.recordStep '1' line = some p →
        pyFloat (pyStrip (pySlice line 20 36)) = some p.north ∧
        pyFloat (pyStrip (pySlice line 36 52)) = some p.east)
    ∧ (∀ (line : String) (p : Point), SDR33Parser.recordStep '2' line = some p →
        pyFloat (pyStrip (pySlice line 36 52)) = some p.north ∧
        pyFloat (pyStrip (pySlice line 20 36)) = some p.east) := by
  intro content header rest h hok
  refine ⟨SDR33Parser.parse_ok_of h hok, ?_, ?_⟩
  · intro line p hp
    exact (SDR33Parser.parseLine_fields (SDR33Parser.recordStep_some hp)).1 rfl
  · intro line p hp
    exact (SDR33Parser.parseLine_fields (SDR33Parser.recordStep_some hp)).2 (by decide)

/-- C3: the SDR33 parse fails with a fatal `FormatError` and no partial
result exactly when the first line is shorter than 45 characters, does not
start with `00NMSDR33`, or has an order flag at offset 44 other than
`'1'`/`'2'`; otherwise the header check passes and per-line processing
proceeds. -/
theorem claim_C3 : ∀ (content header : String) (rest : List String),
    SDR33Parser.linesOf content = header :: rest →
    ((header.length < 45 ∨ strStartsWith header "00NMSDR33" = false ∨
        (¬header.data.getD 44 ' ' = '1' ∧ ¬header.data.getD 44 ' ' = '2')) →
      ∃ msg, SDR33Parser.parse content = .error (.formatError msg))
    ∧ (¬(header.length < 45 ∨ strStartsWith header "00NMSDR33" = false ∨
        (¬header.data.getD 44 ' ' = '1' ∧ ¬header.data.getD 44 ' ' = '2')) →
      SDR33Parser.parse content =
        .ok (rest.filterMap (SDR33Parser.recordStep (header.data.getD 44 ' ')))) := by
  intro content header rest h
  constructor
  · intro hbad
    obtain ⟨msg, hmsg⟩ := SDR33Parser.validateHeader_is_error hbad
    exact ⟨msg, SDR33Parser.parse_error_of h hmsg⟩
  · intro hgood
    exact SDR33Parser.parse_ok_of h (SDR33Parser.validateHeader_is_ok hgood)

/-- C5: for an SDR33 input that passes the header check, a line after the
header that is shorter than 84 characters or whose first two characters
are not `"08"` or `"02"` contributes no `Point` to the output; the parse
still succeeds with the fold over the remaining lines, so such lines are
skipped silently rather than reported as errors. -/
theorem claim_C5 : ∀ (content header : String) (rest : List String),
    SDR33Parser.linesOf content = header :: rest →
    SDR33Parser.validateHeader header = .ok () →
    SDR33Parser.parse content =
      .ok (rest.filterMap (SDR33Parser.recordStep (header.data.getD 44 ' ')))
    ∧ ∀ line : String,
      (line.length < 84 ∨ (¬pySlice line 0 2 = "08" ∧ ¬pySlice line 0 2 = "02")) →
      SDR33Parser.recordStep (header.data.getD 44 ' ') line = none := by
  intro content header rest h hok
  refine ⟨SDR33Parser.parse_ok_of h hok, ?_⟩
  intro line hline
  unfold SDR33Parser.recordStep
  rw [if_neg]
  rintro ⟨hlen, hpre⟩
  rcases hline with hl | ⟨h08, h02⟩
  · omega
  · rcases hpre with hp | hp
    · exact h08 hp
    · exact h02 hp

theorem claim_C1_witness :
    SDR33Parser.parse
        ("00NMSDR33 V04-02.00                     111111\n" ++
          "08KI              P1100.1234        200.5678        10.0            bench-mark-here!")
      = .ok [⟨"P1", mkRat 1001234 10000, mkRat 2005678 10000, mkRat 10 1, "bench-mark-here!"⟩]
    ∧ pyFloat (pyStrip (pySlice
        "08KI              P1100.1234        200.5678        10.0            bench-mark-here!"
        20 36)) = some (mkRat 1001234 10000) := by
  have h := claim_C1
    ("00NMSDR33 V04-02.00                     111111\n" ++
      "08KI              P1100.1234        200.5678        10.0            bench-mark-here!")
    "00NMSDR33 V04-02.00                     111111"
    ["08KI              P1100.1234        200.5678        10.0            bench-mark-here!"]
    (by decide) (by decide)
  refine ⟨h.1.trans (by decide), ?_⟩
  exact (h.2.1
    "08KI              P1100.1234        200.5678        10.0            bench-mark-here!"
    ⟨"P1", mkRat 1001234 10000, mkRat 2005678 10000, mkRat 10 1, "bench-mark-here!"⟩ (by decide)).1

theorem claim_C3_witness :
    SDR33Parser.parse "00NMSDR33 V04-02.00                     111111" = .ok [] := by
  have h := claim_C3 "00NMSDR33 V04-02.00                     111111"
    "00NMSDR33 V04-02.00                     111111" [] (by decide)
  exact (h.2 (by decide)).trans (by decide)

theorem claim_C5_witness :
    SDR33Parser.parse ("00NMSDR33 V04-02.00                     111111\n" ++ "junk line")
      = .ok []
    ∧ SDR33Parser.recordStep
        (("00NMSDR33 V04-02.00                     111111" : String).data.getD 44 ' ')
        "junk line" = none := by
  have h := claim_C5
    ("00NMSDR33 V04-02.00                     111111\n" ++ "junk line")
    "00NMSDR33 V04-02.00                     111111" ["junk line"] (by decide) (by decide)
  exact ⟨h.1.trans (by decide), h.2 "junk line" (Or.inl (by decide))⟩

/-- C6: whenever parsing yields zero valid points, the orchestrator fails
with the empty-result error, never returns a success (so no empty-text
output), and that error is distinct from any structural format error. -/
theorem claim_C6 : ∀ (cfg : ConvertConfig) (content : String),
    parseInputFile cfg content = .ok [] →
    convertApp cfg content = .error .emptyResult
    ∧ (∀ s : String, ¬convertApp cfg content = .ok s)
    ∧ (∀ msg : String, ¬(ConvError.emptyResult = ConvError.formatError msg)) := by
  intro cfg content h
  have hc : convertApp cfg content = .error .emptyResult := by
    unfold convertApp
    rw [h]
    simp
  refine ⟨hc, ?_, ?_⟩
  · intro s hs
    rw [hc] at hs
    cases hs
  · intro msg hmsg
    cases hmsg

theorem claim_C6_witness :
    parseInputFile ⟨".txt", .COMMA, .NORTH_EAST, "SDR", .COMMA, .NORTH_EAST⟩ "" = .ok []
    ∧ convertApp ⟨".txt", .COMMA, .NORTH_EAST, "SDR", .COMMA, .NORTH_EAST⟩ ""
        = .error .emptyResult :=
  ⟨by decide, (claim_C6 ⟨".txt", .COMMA, .NORTH_EAST, "SDR", .COMMA, .NORTH_EAST⟩ "" (by decide)).1⟩

/-- C7: the loader's candidate encodings are, in order, UTF-8, the
Cyrillic code page cp1251, the Western European code page cp1252 and
latin-1; the returned text is that of the first candidate under which
every byte decodes (after text-mode newline translation), and when every
candidate fails the loader signals the encoding error carrying the file's
display name, returning no partial text. -/
theorem claim_C7 :
    ENCODINGS.map Prod.fst = ["utf-8", "cp1251", "cp1252", "latin-1"]
    ∧ ∀ (bs : List Nat) (name : String),
      (∀ t, decodeUtf8 bs = some t →
        FileReader.read_file bs name = .ok (String.mk (uninewline t.data)))
      ∧ (decodeUtf8 bs = none → ∀ t, decodeCp1251 bs = some t →
        FileReader.read_file bs name = .ok (String.mk (uninewline t.data)))
      ∧ (decodeUtf8 bs = none → decodeCp1251 bs = none → ∀ t, decodeCp1252 bs = some t →
        FileReader.read_file bs name = .ok (String.mk (uninewline t.data)))
      ∧ (decodeUtf8 bs = none → decodeCp1251 bs = none → decodeCp1252 bs = none →
        ∀ t, decodeLatin1 bs = some t →
        FileReader.read_file bs name = .ok (String.mk (uninewline t.data)))
      ∧ (decodeUtf8 bs = none → decodeCp1251 bs = none → decodeCp1252 bs = none →
        decodeLatin1 bs = none →
        FileReader.read_file bs name = .error (.encodingError name)) := by
  refine ⟨rfl, ?_⟩
  intro bs name
  refine ⟨?_, ?_, ?_, ?_, ?_⟩
  · intro t h1
    simp only [FileReader.read_file, ENCODINGS, firstDecode, h1]
  · intro h1 t h2
    simp only [FileReader.read_file, ENCODINGS, firstDecode, h1, h2]
  · intro h1 h2 t h3
    simp only [FileReader.read_file, ENCODINGS, firstDecode, h1, h2, h3]
  · intro h1 h2 h3 t h4
    simp only [FileReader.read_file, ENCODINGS, firstDecode, h1, h2, h3, h4]
  · intro h1 h2 h3 h4
    simp only [FileReader.read_file, ENCODINGS, firstDecode, h1, h2, h3, h4]

theorem claim_C7_witness :
    decodeUtf8 [255] = none ∧ decodeCp1251 [255] = some "я"
    ∧ FileReader.read_file [255] "f" = .ok (String.mk (uninewline ("я" : String).data)) :=
  ⟨by decide, by decide, ((claim_C7.2 [255] "f").2.1 (by decide) "я" (by decide))⟩

/-- C8 counterexample: on empty input the SDR33 parser does not return an
empty collection. -/
theorem claim_C8_cex : ¬SDR33Parser.parse "" = .ok ([] : List Point) := by decide

/-- C8 amended: splitting always yields at least one line, so the no-lines
branch returning an empty collection is unreachable; on empty input the
single empty line fails header validation and the parser raises the
header-too-short `FormatError` instead of returning an empty collection. -/
theorem claim_C8_amended :
    (∀ content : String, 0 < (SDR33Parser.linesOf content).length)
    ∧ SDR33Parser.parse ""
        = .error (.formatError "Заголовок SDR33 слишком короткий: 0 < 45") :=
  ⟨fun content => List.length_pos.mpr (SDR33Parser.linesOf_ne_nil content), by decide⟩

theorem padLeftSp_len (w : Nat) (s : String) :
    (padLeftSp w s).data.length = (w - s.data.length) + s.data.length := by
  simp [padLeftSp]

theorem padRightSp_len (w : Nat) (s : String) :
    (padRightSp w s).data.length = s.data.length + (w - s.data.length) := by
  simp [padRightSp]

theorem sdrFull_len (p : Point) : 84 ≤ (FileFormatter.sdrFull p).data.length := by
  unfold FileFormatter.sdrFull
  simp only [String.data_append, List.length_append, padLeftSp_len, padRightSp_len]
  have h1 : 16 ≤ (16 - p.point.data.length) + p.point.data.length := by omega
  have h2 : 16 ≤ (fmt4 p.north).data.length + (16 - (fmt4 p.north).data.length) := by omega
  have h3 : 16 ≤ (fmt4 p.east).data.length + (16 - (fmt4 p.east).data.length) := by omega
  have h4 : 16 ≤ (fmt4 p.height).data.length + (16 - (fmt4 p.height).data.length) := by omega
  have h5 : 16 ≤ p.description.data.length + (16 - p.description.data.length) := by omega
  have h0 : (['0', '8', 'K', 'I'] : List Char).length = 4 := rfl
  omega

/-- C9: the SDR33 formatter emits the fixed literal header line followed by
one record line per point; each record line is the concatenation of the
literal `"08KI"`, the name right-justified in 16 characters, north, east
and height each printed with 4 decimals left-justified in 16 characters,
and the description left-justified in 16 characters, hard-truncated to
exactly 84 characters — names or descriptions longer than 16 characters
still yield an 84-character line with the overflow cut off, never wrapped
and never an error. -/
theorem claim_C9 : (∀ points : List Point,
      FileFormatter.to_sdr33 points = String.mk (joinChars '\n'
        (("00NMSDR33 V04-02.00                     111111" :: points.map FileFormatter.sdrLine).map
          String.data)))
    ∧ ∀ p : Point,
      (FileFormatter.sdrLine p).data = (FileFormatter.sdrFull p).data.take 84
      ∧ (FileFormatter.sdrFull p).data =
          ("08KI" : String).data ++ (padLeftSp 16 p.point).data ++
          (padRightSp 16 (fmt4 p.north)).data ++ (padRightSp 16 (fmt4 p.east)).data ++
          (padRightSp 16 (fmt4 p.height)).data ++ (padRightSp 16 p.description).data
      ∧ (FileFormatter.sdrLine p).data.length = 84 := by
  refine ⟨fun points => rfl, fun p => ⟨rfl, by simp [FileFormatter.sdrFull, String.data_append], ?_⟩⟩
  show ((FileFormatter.sdrFull p).data.take 84).length = 84
  rw [List.length_take]
  have := sdrFull_len p
  omega

/-- C4: a line whose delimiter-split, trimmed fields number at least 4 and
whose fields 1-3 parse as floats yields a `Point` with name = field 0,
the two coordinates assigned by the order parameter, height = field 3 and
description = field 4 when present (else empty); and the spec's example
line parses accordingly. -/
theorem claim_C4 : (∀ (line : String) (d : Char) (v1 v2 v3 : ℚ),
      4 ≤ (trimmedParts line d).length →
      pyFloat ((trimmedParts line d).getD 1 "") = some v1 →
      pyFloat ((trimmedParts line d).getD 2 "") = some v2 →
      pyFloat ((trimmedParts line d).getD 3 "") = some v3 →
      GenericTextParser.gpLine line d .NORTH_EAST = some
        ⟨(trimmedParts line d).getD 0 "", v1, v2, v3,
          if 4 < (trimmedParts line d).length then (trimmedParts line d).getD 4 "" else ""⟩
      ∧ GenericTextParser.gpLine line d .EAST_NORTH = some
        ⟨(trimmedParts line d).getD 0 "", v2, v1, v3,
          if 4 < (trimmedParts line d).length then (trimmedParts line d).getD 4 "" else ""⟩)
    ∧ GenericTextParser.parse "P1,100.1234,200.5678,10.0000,benchmark" ',' .NORTH_EAST =
        [⟨"P1", 1001234 / 10000, 2005678 / 10000, 10, "benchmark"⟩] := by
  constructor
  · intro line d v1 v2 v3 hlen h1 h2 h3
    constructor <;>
      (unfold GenericTextParser.gpLine; rw [if_neg (by omega), h1, h2, h3])
  · have h : GenericTextParser.parse "P1,100.1234,200.5678,10.0000,benchmark" ',' .NORTH_EAST =
        [⟨"P1", mkRat 1001234 10000, mkRat 2005678 10000, mkRat 10 1, "benchmark"⟩] := by
      decide
    rw [h]
    simp only [List.cons.injEq, Point.mk.injEq, Rat.mkRat_eq_div]
    norm_num

theorem claim_C4_witness :
    4 ≤ (trimmedParts "P1,100.1234,200.5678,10.0000,benchmark" ',').length
    ∧ GenericTextParser.gpLine "P1,100.1234,200.5678,10.0000,benchmark" ',' .NORTH_EAST = some
        ⟨(trimmedParts "P1,100.1234,200.5678,10.0000,benchmark" ',').getD 0 "",
          mkRat 1001234 10000, mkRat 2005678 10000, mkRat 10 1,
          if 4 < (trimmedParts "P1,100.1234,200.5678,10.0000,benchmark" ',').length then
            (trimmedParts "P1,100.1234,200.5678,10.0000,benchmark" ',').getD 4 "" else ""⟩ :=
  ⟨by decide,
    (claim_C4.1 "P1,100.1234,200.5678,10.0000,benchmark" ','
      (mkRat 1001234 10000) (mkRat 2005678 10000) (mkRat 10 1)
      (by decide) (by decide) (by decide) (by decide)).1⟩

theorem dropWhile_append_of_ne_nil {p : Char → Bool} {l1 : List Char}
    (h : l1.dropWhile p ≠ []) (l2 : List Char) :
    (l1 ++ l2).dropWhile p = l1.dropWhile p ++ l2 := by
  rw [List.dropWhile_append, if_neg (by simpa [List.isEmpty_iff] using h)]

theorem stripRight_append {R : List Char} (hR : ∃ c ∈ R, isPySpace c = false)
    (L : List Char) :
    ((L ++ R).reverse.dropWhile isPySpace).reverse
      = L ++ (R.reverse.dropWhile isPySpace).reverse := by
  rw [List.reverse_append]
  have hne : R.reverse.dropWhile isPySpace ≠ [] := by
    rw [Ne, List.dropWhile_eq_nil_iff]
    intro hall
    obtain ⟨c, hc, hpc⟩ := hR
    have := hall c (List.mem_reverse.mpr hc)
    rw [hpc] at this
    cases this
  rw [dropWhile_append_of_ne_nil hne, List.reverse_append, List.reverse_reverse]

theorem linesOf_header_struct {H : String} {R : List Char}
    (hH0 : isPySpace ((H.data ++ '\n' :: R).headD '0') = false)
    (hHn : '\n' ∉ H.data)
    (hR : ∃ c ∈ R, isPySpace c = false) :
    SDR33Parser.linesOf (String.mk (H.data ++ '\n' :: R))
      = H :: (splitChar '\n' ((R.reverse.dropWhile isPySpace).reverse)).map String.mk := by
  unfold SDR33Parser.linesOf
  have h1 : stripChars (H.data ++ '\n' :: R)
      = H.data ++ '\n' :: ((R.reverse.dropWhile isPySpace).reverse) := by
    unfold stripChars
    rw [dropWhile_eq_self_of_head hH0]
    rw [show H.data ++ '\n' :: R = (H.data ++ ['\n']) ++ R by simp]
    rw [stripRight_append hR]
    simp
  show (splitChar '\n' (stripChars (H.data ++ '\n' :: R))).map String.mk = _
  rw [h1, splitChar_append_cons _ hHn, List.map_cons]

theorem sdrFull_head (p : Point) :
    ∃ t, (FileFormatter.sdrFull p).data = '0' :: t := by
  have h : (FileFormatter.sdrFull p).data
      = '0' :: ('8' :: 'K' :: 'I' ::
          (((((padLeftSp 16 p.point).data ++ (padRightSp 16 (fmt4 p.north)).data) ++
            (padRightSp 16 (fmt4 p.east)).data) ++ (padRightSp 16 (fmt4 p.height)).data) ++
            (padRightSp 16 p.description).data)) := by
    unfold FileFormatter.sdrFull
    simp only [String.data_append]
    rfl
  exact ⟨_, h⟩

theorem zero_mem_sdrLine (p : Point) : '0' ∈ (FileFormatter.sdrLine p).data := by
  obtain ⟨t, ht⟩ := sdrFull_head p
  show '0' ∈ (FileFormatter.sdrFull p).data.take 84
  rw [ht, List.take_succ_cons]
  exact List.mem_cons_self _ _

theorem mem_joinChars_head {c : Char} {l : List Char} {ls : List (List Char)} {a : Char}
    (ha : a ∈ l) : a ∈ joinChars c (l :: ls) := by
  cases ls with
  | nil => exact ha
  | cons l2 ls2 => rw [joinChars_cons]; exact List.mem_append_left _ ha

theorem headD_append_left {A B : List Char} (h : A ≠ []) (d : Char) :
    (A ++ B).headD d = A.headD d := by
  cases A with
  | nil => exact absurd rfl h
  | cons x xs => rfl

theorem to_sdr33_linesOf (points : List Point) :
    ∃ rest : List String,
      SDR33Parser.linesOf (FileFormatter.to_sdr33 points)
        = FileFormatter.sdrHeader :: rest := by
  cases points with
  | nil => exact ⟨[], by decide⟩
  | cons p ps =>
    have hform : FileFormatter.to_sdr33 (p :: ps)
        = String.mk (FileFormatter.sdrHeader.data ++ '\n' ::
            joinChars '\n' (((p :: ps).map FileFormatter.sdrLine).map String.data)) := by
      unfold FileFormatter.to_sdr33
      simp only [List.map_cons, joinChars_cons]
    refine ⟨(splitChar '\n'
        (((joinChars '\n' (((p :: ps).map FileFormatter.sdrLine).map String.data)).reverse.dropWhile
          isPySpace).reverse)).map String.mk, ?_⟩
    rw [hform]
    refine linesOf_header_struct ?_ (by decide)
      ⟨'0', mem_joinChars_head (zero_mem_sdrLine p), by decide⟩
    rw [headD_append_left (show FileFormatter.sdrHeader.data ≠ [] by decide)]
    decide

/-- C10: the SDR33 formatter's header line passes all three checks of the
parser's header validation, with order flag `'1'` at offset 44; hence
re-parsing formatter output never takes the fatal header-error branch — it
always succeeds with the record fold under flag `'1'` — and a record
accepted under flag `'1'` takes its north from the first coordinate field
(chars 20:36). -/
theorem claim_C10 :
    SDR33Parser.validateHeader FileFormatter.sdrHeader = .ok ()
    ∧ FileFormatter.sdrHeader.data.getD 44 ' ' = '1'
    ∧ (∀ points : List Point,
        SDR33Parser.parse (FileFormatter.to_sdr33 points) =
          .ok (((SDR33Parser.linesOf (FileFormatter.to_sdr33 points)).drop 1).filterMap
            (SDR33Parser.recordStep '1')))
    ∧ ∀ (line : String) (p : Point), SDR33Parser.recordStep '1' line = some p →
        pyFloat (pyStrip (pySlice line 20 36)) = some p.north := by
  refine ⟨by decide, by decide, ?_, ?_⟩
  · intro points
    obtain ⟨rest, hlines⟩ := to_sdr33_linesOf points
    have hparse := SDR33Parser.parse_ok_of hlines (by decide)
    have hflag : FileFormatter.sdrHeader.data.getD 44 ' ' = '1' := by decide
    rw [hflag] at hparse
    rw [hlines]
    simpa using hparse
  · intro line p hp
    exact ((SDR33Parser.parseLine_fields (SDR33Parser.recordStep_some hp)).1 rfl).1

theorem claim_C10_witness :
    SDR33Parser.parse (FileFormatter.to_sdr33 [⟨"P2", mkRat 5 1, mkRat 6 1, mkRat 7 1, "x"⟩])
      = .ok (((SDR33Parser.linesOf
          (FileFormatter.to_sdr33 [⟨"P2", mkRat 5 1, mkRat 6 1, mkRat 7 1, "x"⟩])).drop 1).filterMap
        (SDR33Parser.recordStep '1'))
    ∧ pyFloat (pyStrip (pySlice
        "08KI              P1100.1234        200.5678        10.0            bench-mark-here!"
        20 36)) = some (mkRat 1001234 10000) :=
  ⟨claim_C10.2.2.1 [⟨"P2", mkRat 5 1, mkRat 6 1, mkRat 7 1, "x"⟩],
    claim_C10.2.2.2
      "08KI              P1100.1234        200.5678        10.0            bench-mark-here!"
      ⟨"P1", mkRat 1001234 10000, mkRat 2005678 10000, mkRat 10 1, "bench-mark-here!"⟩
      (by decide)⟩

/-! ## Round trip of the delimited formatter and parser -/

/-- A point with its coordinates and height rounded to 4 decimal places:
the image of a point after one format/parse round trip. -/
def normalize4 (p : Point) : Point :=
  ⟨p.point, round4 p.north, round4 p.east, round4 p.height, p.description⟩

/-- Side conditions under which one point survives a delimited round trip:
its name and description contain neither the delimiter character nor a
newline, both are unchanged by whitespace trimming, and when the delimiter
itself is a whitespace character (space or tab) the name is nonempty. -/
abbrev roundTripSafe (d : Delimiter) (p : Point) : Prop :=
  stripChars p.point.data = p.point.data ∧
  stripChars p.description.data = p.description.data ∧
  d.char ∉ p.point.data ∧ d.char ∉ p.description.data ∧
  '\n' ∉ p.point.data ∧ '\n' ∉ p.description.data ∧
  (isPySpace d.char = true → ¬p.point = "")

theorem gpStep_nil (d : Char) (o : CoordinateOrder) :
    GenericTextParser.gpStep d o [] = none := rfl

theorem gpStep_cons_space {x : Char} (hx : isPySpace x = true) (d : Char)
    (o : CoordinateOrder) (l : List Char) :
    GenericTextParser.gpStep d o (x :: l) = GenericTextParser.gpStep d o l := by
  unfold GenericTextParser.gpStep
  rw [stripChars_cons_space hx]

theorem gpStep_append_space {a : Char} (ha : isPySpace a = true) (d : Char)
    (o : CoordinateOrder) (l : List Char) :
    GenericTextParser.gpStep d o (l ++ [a]) = GenericTextParser.gpStep d o l := by
  unfold GenericTextParser.gpStep
  rw [stripChars_append_space ha]

theorem gpStep_single_space {a : Char} (ha : isPySpace a = true) (d : Char)
    (o : CoordinateOrder) : GenericTextParser.gpStep d o [a] = none := by
  have h : GenericTextParser.gpStep d o ([] ++ [a]) = GenericTextParser.gpStep d o [] :=
    gpStep_append_space ha d o []
  simpa using h

theorem filterMap_appendLastCh {f : List Char → Option Point} {a : Char}
    (hf : ∀ g, f (g ++ [a]) = f g) (hnil : f [a] = none) :
    ∀ gs : List (List Char), (appendLastCh gs a).filterMap f = gs.filterMap f
  | [] => by simp [appendLastCh, List.filterMap_cons, hnil]
  | [g] => by simp only [appendLastCh, List.filterMap_cons, hf g]
  | g :: g2 :: gs => by
    rw [show appendLastCh (g :: g2 :: gs) a = g :: appendLastCh (g2 :: gs) a from rfl,
      List.filterMap_cons, List.filterMap_cons,
      filterMap_appendLastCh hf hnil (g2 :: gs)]

theorem splitChar_cons_self (c : Char) (xs : List Char) :
    splitChar c (c :: xs) = [] :: splitChar c xs := by
  cases hs : splitChar c xs with
  | nil => exact absurd hs (splitChar_ne_nil _ _)
  | cons g gs => simp only [splitChar, hs, eq_self_iff_true, if_true]

theorem splitChar_cons_ne {x c : Char} (hx : ¬x = c) {xs : List Char} {g : List Char}
    {gs : List (List Char)} (hs : splitChar c xs = g :: gs) :
    splitChar c (x :: xs) = (x :: g) :: gs := by
  simp only [splitChar, hs, if_neg hx]

theorem fm_dropWhile (d : Char) (o : CoordinateOrder) (t : List Char) :
    (splitChar '\n' (t.dropWhile isPySpace)).filterMap (GenericTextParser.gpStep d o)
      = (splitChar '\n' t).filterMap (GenericTextParser.gpStep d o) := by
  induction t with
  | nil => rfl
  | cons x xs ih =>
    rw [List.dropWhile_cons]
    by_cases hx : isPySpace x = true
    · rw [if_pos hx, ih]
      cases hs : splitChar '\n' xs with
      | nil => exact absurd hs (splitChar_ne_nil _ _)
      | cons g gs =>
        by_cases hnl : x = '\n'
        · subst hnl
          rw [splitChar_cons_self '\n' xs, List.filterMap_cons_none (gpStep_nil d o), hs]
        · rw [splitChar_cons_ne hnl hs, List.filterMap_cons, List.filterMap_cons,
            gpStep_cons_space hx]
    · rw [if_neg hx]

theorem fm_stripRight (d : Char) (o : CoordinateOrder) (t : List Char) :
    (splitChar '\n' ((t.reverse.dropWhile isPySpace).reverse)).filterMap
      (GenericTextParser.gpStep d o)
      = (splitChar '\n' t).filterMap (GenericTextParser.gpStep d o) := by
  induction t using List.reverseRecOn with
  | nil => rfl
  | append_singleton xs a ih =>
    by_cases ha : isPySpace a = true
    · have hstep : ((xs ++ [a]).reverse.dropWhile isPySpace).reverse
          = (xs.reverse.dropWhile isPySpace).reverse := by
        rw [List.reverse_append]
        simp [List.dropWhile_cons, ha]
      rw [hstep, ih]
      by_cases hnl : a = '\n'
      · subst hnl
        rw [splitChar_append_last, List.filterMap_append]
        simp [gpStep_nil]
      · rw [splitChar_append_ne hnl]
        exact (filterMap_appendLastCh (fun g => gpStep_append_space ha d o g)
          (gpStep_single_space ha d o) _).symm
    · have hstep : ((xs ++ [a]).reverse.dropWhile isPySpace).reverse = xs ++ [a] := by
        rw [List.reverse_append]
        simp [List.dropWhile_cons, ha]
      rw [hstep]

theorem filterMap_gpStep_strip (d : Char) (o : CoordinateOrder) (t : List Char) :
    (splitChar '\n' (stripChars t)).filterMap (GenericTextParser.gpStep d o)
      = (splitChar '\n' t).filterMap (GenericTextParser.gpStep d o) := by
  show (splitChar '\n'
      (((t.dropWhile isPySpace).reverse.dropWhile isPySpace).reverse)).filterMap _ = _
  rw [fm_stripRight d o (t.dropWhile isPySpace), fm_dropWhile d o t]

theorem gpLine_parts5 {line : String} {d : Char} {o : CoordinateOrder} {nm ds : String}
    {a b h3 : ℚ} (hp : trimmedParts line d = [nm, fmt4 a, fmt4 b, fmt4 h3, ds]) :
    GenericTextParser.gpLine line d o = some (match o with
      | .NORTH_EAST => ⟨nm, round4 a, round4 b, round4 h3, ds⟩
      | .EAST_NORTH => ⟨nm, round4 b, round4 a, round4 h3, ds⟩) := by
  unfold GenericTextParser.gpLine
  rw [hp]
  rw [if_neg (by simp)]
  simp only [List.getD_cons_succ, List.getD_cons_zero]
  rw [pyFloat_fmt4, pyFloat_fmt4, pyFloat_fmt4]
  cases o <;> simp

theorem gpLine_parts4 {line : String} {d : Char} {o : CoordinateOrder} {nm : String}
    {a b h3 : ℚ} (hp : trimmedParts line d = [nm, fmt4 a, fmt4 b, fmt4 h3]) :
    GenericTextParser.gpLine line d o = some (match o with
      | .NORTH_EAST => ⟨nm, round4 a, round4 b, round4 h3, ""⟩
      | .EAST_NORTH => ⟨nm, round4 b, round4 a, round4 h3, ""⟩) := by
  unfold GenericTextParser.gpLine
  rw [hp]
  rw [if_neg (by simp)]
  simp only [List.getD_cons_succ, List.getD_cons_zero]
  rw [pyFloat_fmt4, pyFloat_fmt4, pyFloat_fmt4]
  cases o <;> simp

theorem strMk_eq_empty_iff {L : List Char} : String.mk L = "" ↔ L = [] := by
  constructor
  · intro h
    exact congrArg String.data h
  · rintro rfl
    rfl

theorem string_of_data_nil {s : String} (h : s.data = []) : s = "" := by
  have := congrArg String.mk h
  simpa using this

theorem gpStep_join5 (d : Delimiter) (o : CoordinateOrder) (nm ds : String) (a b h3 : ℚ)
    (hnm : stripChars nm.data = nm.data) (hds : stripChars ds.data = ds.data)
    (hnd : d.char ∉ nm.data) (hdd : d.char ∉ ds.data)
    (hne : isPySpace d.char = true → ¬nm = "") :
    GenericTextParser.gpStep d.char o
      (joinChars d.char [nm.data, (fmt4 a).data, (fmt4 b).data, (fmt4 h3).data, ds.data])
      = some (match o with
        | .NORTH_EAST => (⟨nm, round4 a, round4 b, round4 h3, ds⟩ : Point)
        | .EAST_NORTH => ⟨nm, round4 b, round4 a, round4 h3, ds⟩) := by
  by_cases hcase : isPySpace d.char = true ∧ ds = ""
  · obtain ⟨hspc, hdse⟩ := hcase
    have hnmne : ¬nm = "" := hne hspc
    have hnmd : nm.data ≠ [] := fun h => hnmne (string_of_data_nil h)
    subst hdse
    have hL : joinChars d.char
          [nm.data, (fmt4 a).data, (fmt4 b).data, (fmt4 h3).data, ("" : String).data]
        = joinChars d.char [nm.data, (fmt4 a).data, (fmt4 b).data, (fmt4 h3).data]
            ++ [d.char] := by
      show nm.data ++ d.char :: ((fmt4 a).data ++ d.char :: ((fmt4 b).data ++ d.char ::
        ((fmt4 h3).data ++ d.char :: []))) = _
      simp [joinChars, List.append_assoc]
    rw [hL, gpStep_append_space hspc]
    unfold GenericTextParser.gpStep
    have hJ4 : joinChars d.char [nm.data, (fmt4 a).data, (fmt4 b).data, (fmt4 h3).data]
        = nm.data ++ d.char :: ((fmt4 a).data ++ d.char :: ((fmt4 b).data ++ d.char ::
            (fmt4 h3).data)) := rfl
    have hJ4strip : stripChars (joinChars d.char
          [nm.data, (fmt4 a).data, (fmt4 b).data, (fmt4 h3).data])
        = joinChars d.char [nm.data, (fmt4 a).data, (fmt4 b).data, (fmt4 h3).data] := by
      apply stripChars_eq_self
      · rw [hJ4, headD_append_left hnmd]
        exact head_not_space_of_stripped hnm
      · have hform : joinChars d.char [nm.data, (fmt4 a).data, (fmt4 b).data, (fmt4 h3).data]
            = (nm.data ++ d.char :: ((fmt4 a).data ++ d.char :: ((fmt4 b).data ++ [d.char])))
                ++ (fmt4 h3).data := by
          rw [hJ4]; simp [List.append_assoc]
        rw [hform, List.reverse_append,
          headD_append_left (by simpa using fmt4_ne_nil h3)]
        exact revhead_not_space_of_stripped (fmt4_stripped h3)
    rw [hJ4strip, if_neg ?hJ4ne]
    case hJ4ne =>
      rw [strMk_eq_empty_iff, hJ4]
      intro hnil
      rcases List.append_eq_nil.mp hnil with ⟨-, h2⟩
      exact List.cons_ne_nil _ _ h2
    have hsplit : splitChar d.char (joinChars d.char
          [nm.data, (fmt4 a).data, (fmt4 b).data, (fmt4 h3).data])
        = [nm.data, (fmt4 a).data, (fmt4 b).data, (fmt4 h3).data] := by
      apply splitChar_joinChars (by simp)
      intro l hl
      simp only [List.mem_cons, List.not_mem_nil, or_false] at hl
      rcases hl with rfl | rfl | rfl | rfl
      · exact hnd
      · exact delim_not_mem_fmt4 d a
      · exact delim_not_mem_fmt4 d b
      · exact delim_not_mem_fmt4 d h3
    have hparts : trimmedParts (String.mk (joinChars d.char
          [nm.data, (fmt4 a).data, (fmt4 b).data, (fmt4 h3).data])) d.char
        = [nm, fmt4 a, fmt4 b, fmt4 h3] := by
      unfold trimmedParts
      rw [show (String.mk (joinChars d.char
            [nm.data, (fmt4 a).data, (fmt4 b).data, (fmt4 h3).data])).data
          = joinChars d.char [nm.data, (fmt4 a).data, (fmt4 b).data, (fmt4 h3).data]
          from rfl, hsplit]
      simp only [List.map_cons, List.map_nil]
      rw [hnm, fmt4_stripped, fmt4_stripped, fmt4_stripped]
    rw [gpLine_parts4 hparts]
  · have hL : joinChars d.char
          [nm.data, (fmt4 a).data, (fmt4 b).data, (fmt4 h3).data, ds.data]
        = nm.data ++ d.char :: ((fmt4 a).data ++ d.char :: ((fmt4 b).data ++ d.char ::
            ((fmt4 h3).data ++ d.char :: ds.data))) := rfl
    have hstrip : stripChars (joinChars d.char
          [nm.data, (fmt4 a).data, (fmt4 b).data, (fmt4 h3).data, ds.data])
        = joinChars d.char [nm.data, (fmt4 a).data, (fmt4 b).data, (fmt4 h3).data, ds.data] := by
      apply stripChars_eq_self
      · rw [hL]
        cases hnm0 : nm.data with
        | nil =>
          have hsp : isPySpace d.char = false := by
            cases hspc : isPySpace d.char
            · rfl
            · exact absurd (string_of_data_nil hnm0) (hne hspc)
          simpa using hsp
        | cons x xs =>
          have hh := head_not_space_of_stripped hnm
          rw [hnm0] at hh
          simpa using hh
      · rw [hL]
        cases hds0 : ds.data with
        | nil =>
          have hsp : isPySpace d.char = false := by
            cases hspc : isPySpace d.char
            · rfl
            · exact absurd ⟨hspc, string_of_data_nil hds0⟩ hcase
          have hform : nm.data ++ d.char :: ((fmt4 a).data ++ d.char :: ((fmt4 b).data ++
                d.char :: ((fmt4 h3).data ++ d.char :: ([] : List Char))))
              = (nm.data ++ d.char :: ((fmt4 a).data ++ d.char :: ((fmt4 b).data ++ d.char ::
                  (fmt4 h3).data))) ++ [d.char] := by
            simp [List.append_assoc]
          rw [hform, List.reverse_append]
          simpa using hsp
        | cons y ys =>
          have hform : nm.data ++ d.char :: ((fmt4 a).data ++ d.char :: ((fmt4 b).data ++
                d.char :: ((fmt4 h3).data ++ d.char :: (y :: ys))))
              = (nm.data ++ d.char :: ((fmt4 a).data ++ d.char :: ((fmt4 b).data ++ d.char ::
                  ((fmt4 h3).data ++ [d.char])))) ++ (y :: ys) := by
            simp [List.append_assoc]
          rw [hform, List.reverse_append, headD_append_left (by simp)]
          have hh := revhead_not_space_of_stripped hds
          rw [hds0] at hh
          exact hh
    unfold GenericTextParser.gpStep
    rw [hstrip, if_neg ?hLne]
    case hLne =>
      rw [strMk_eq_empty_iff, hL]
      intro hnil
      rcases List.append_eq_nil.mp hnil with ⟨-, h2⟩
      exact List.cons_ne_nil _ _ h2
    have hsplit : splitChar d.char (joinChars d.char
          [nm.data, (fmt4 a).data, (fmt4 b).data, (fmt4 h3).data, ds.data])
        = [nm.data, (fmt4 a).data, (fmt4 b).data, (fmt4 h3).data, ds.data] := by
      apply splitChar_joinChars (by simp)
      intro l hl
      simp only [List.mem_cons, List.not_mem_nil, or_false] at hl
      rcases hl with rfl | rfl | rfl | rfl | rfl
      · exact hnd
      · exact delim_not_mem_fmt4 d a
      · exact delim_not_mem_fmt4 d b
      · exact delim_not_mem_fmt4 d h3
      · exact hdd
    have hparts : trimmedParts (String.mk (joinChars d.char
          [nm.data, (fmt4 a).data, (fmt4 b).data, (fmt4 h3).data, ds.data])) d.char
        = [nm, fmt4 a, fmt4 b, fmt4 h3, ds] := by
      unfold trimmedParts
      rw [show (String.mk (joinChars d.char
            [nm.data, (fmt4 a).data, (fmt4 b).data, (fmt4 h3).data, ds.data])).data
          = joinChars d.char [nm.data, (fmt4 a).data, (fmt4 b).data, (fmt4 h3).data, ds.data]
          from rfl, hsplit]
      simp only [List.map_cons, List.map_nil]
      rw [hnm, hds, fmt4_stripped, fmt4_stripped, fmt4_stripped]
    rw [gpLine_parts5 hparts]

theorem mem_joinChars {c a : Char} : ∀ {ls : List (List Char)},
    a ∈ joinChars c ls → a = c ∨ ∃ l ∈ ls, a ∈ l := by
  intro ls
  induction ls with
  | nil => intro h; cases h
  | cons l ls ih =>
    intro h
    cases ls with
    | nil => exact Or.inr ⟨l, by simp, h⟩
    | cons l2 ls2 =>
      rw [joinChars_cons] at h
      rcases List.mem_append.mp h with h | h
      · exact Or.inr ⟨l, by simp, h⟩
      · rcases List.mem_cons.mp h with rfl | h
        · exact Or.inl rfl
        · rcases ih h with h | ⟨g, hg, hag⟩
          · exact Or.inl h
          · exact Or.inr ⟨g, List.mem_cons_of_mem _ hg, hag⟩

theorem textLine_no_newline (d : Delimiter) (o : CoordinateOrder) (p : Point)
    (hnn : '\n' ∉ p.point.data) (hdn : '\n' ∉ p.description.data) :
    '\n' ∉ FileFormatter.textLine p d.char o := by
  intro hm
  have hdc : ¬('\n' : Char) = d.char := by cases d <;> decide
  cases o <;>
    (simp only [FileFormatter.textLine] at hm
     rcases mem_joinChars hm with h | ⟨l, hl, hal⟩
     · exact hdc h
     · simp only [List.mem_cons, List.not_mem_nil, or_false] at hl
       rcases hl with rfl | rfl | rfl | rfl | rfl
       · exact hnn hal
       · exact newline_not_mem_fmt4 _ hal
       · exact newline_not_mem_fmt4 _ hal
       · exact newline_not_mem_fmt4 _ hal
       · exact hdn hal)

theorem gpStep_textLine (d : Delimiter) (o : CoordinateOrder) (p : Point)
    (hsafe : roundTripSafe d p) :
    GenericTextParser.gpStep d.char o (FileFormatter.textLine p d.char o)
      = some (normalize4 p) := by
  obtain ⟨hnm, hds, hnd, hdd, hnn, hdn, hne⟩ := hsafe
  cases o
  · exact gpStep_join5 d .NORTH_EAST p.point p.description p.north p.east p.height
      hnm hds hnd hdd hne
  · exact gpStep_join5 d .EAST_NORTH p.point p.description p.east p.north p.height
      hnm hds hnd hdd hne

/-- C2 counterexample: a point whose name contains the delimiter does not
survive the round trip — formatting then parsing drops the record
entirely, which differs from the collection rounded to 4 decimals. -/
theorem claim_C2_cex :
    GenericTextParser.parse
        (FileFormatter.to_text [⟨"a,b", mkRat 1 1, mkRat 2 1, mkRat 3 1, ""⟩]
          Delimiter.COMMA.char .NORTH_EAST) Delimiter.COMMA.char .NORTH_EAST = []
    ∧ ¬([(⟨"a,b", mkRat 1 1, mkRat 2 1, mkRat 3 1, ""⟩ : Point)].map normalize4 = []) :=
  ⟨by decide, by decide⟩

/-- C2 amended: formatting a point collection to delimited text and parsing
it back with the same delimiter and order returns the collection with
north, east and height rounded to 4 decimal places, provided every point's
name and description contain neither the delimiter character nor a
newline and are unchanged by whitespace trimming, and, when the delimiter
is itself a whitespace character, every name is nonempty. -/
theorem claim_C2_amended : ∀ (points : List Point) (d : Delimiter) (o : CoordinateOrder),
    (∀ p ∈ points, roundTripSafe d p) →
    GenericTextParser.parse (FileFormatter.to_text points d.char o) d.char o
      = points.map normalize4 := by
  intro points d o hsafe
  unfold GenericTextParser.parse
  rw [show (FileFormatter.to_text points d.char o).data
      = joinChars '\n' (points.map (fun p => FileFormatter.textLine p d.char o)) from rfl]
  rw [filterMap_gpStep_strip]
  cases points with
  | nil => rfl
  | cons p ps =>
    rw [splitChar_joinChars (by simp) ?hnl]
    case hnl =>
      intro l hl
      obtain ⟨q, hq, rfl⟩ := List.mem_map.mp hl
      have h := hsafe q hq
      exact textLine_no_newline d o q h.2.2.2.2.1 h.2.2.2.2.2.1
    have haux : ∀ (l : List Point), (∀ q ∈ l, roundTripSafe d q) →
        (l.map (fun q => FileFormatter.textLine q d.char o)).filterMap
          (GenericTextParser.gpStep d.char o) = l.map normalize4 := by
      intro l
      induction l with
      | nil => intro _; rfl
      | cons q qs ih =>
        intro hl
        rw [List.map_cons, List.filterMap_cons_some (gpStep_textLine d o q (hl q (by simp))),
          ih (fun r hr => hl r (by simp [hr])), List.map_cons]
    exact haux (p :: ps) hsafe

theorem claim_C2_witness :
    (∀ p ∈ [(⟨"P1", mkRat 1 1, mkRat 2 1, mkRat 3 1, "desc"⟩ : Point)],
      roundTripSafe Delimiter.COMMA p)
    ∧ GenericTextParser.parse
        (FileFormatter.to_text [⟨"P1", mkRat 1 1, mkRat 2 1, mkRat 3 1, "desc"⟩]
          Delimiter.COMMA.char .NORTH_EAST) Delimiter.COMMA.char .NORTH_EAST
      = [(⟨"P1", mkRat 1 1, mkRat 2 1, mkRat 3 1, "desc"⟩ : Point)].map normalize4 :=
  ⟨by decide, claim_C2_amended _ Delimiter.COMMA .NORTH_EAST (by decide)⟩
